import Mathlib

/-!
# UTF-8 / UCS2 transcoder and canonical precomposition (`lib/unicode.c`)

A shallow embedding of `lib/unicode.c` and theorems about it.

Conventions of the embedding

* A byte is a `Nat` below 256, a `char16` unit a `Nat` below 65536
  (`char16` is the 16-bit unsigned unit type of `unicode.h`).
* A C pointer that only moves forward is the list of the cells from the
  pointed cell to the end of the object it points into: `p[k]` is `p[k]?`,
  `p += n` is `p.drop n`.  A read outside the object is the fault
  `Fault.readPastEnd` (undefined behaviour in C).
* Loops whose step is computed from the data carry a fuel argument; the entry
  points supply enough of it (`Fault.outOfFuel` is shown unreachable).
* The byte order of the host is the parameter `le` (`true`: the first stored
  byte of a unit is its low byte).
* `malloc` succeeds in the entry points; `UTF8toUCS2.alloc` and
  `UCS2toUTF8.alloc` take its outcome as a parameter, and a store through the
  null pointer is the fault `Fault.nullWrite`.
* An `int` has 32 bits.  The size `UCS2toUTF8` asks `malloc` for is computed
  by `UCS2toUTF8.allocSize`, where a product above `INT_MAX` is the fault
  `Fault.intOverflow` (undefined behaviour in C).
-/

namespace Unicode

/-- The ways a run can leave the defined behaviour of the C program. -/
inductive Fault where
  -- a read through a pointer that has left the object it points into
  | readPastEnd
  -- the fuel of a loop of the embedding ran out (never the case from the entry points)
  | outOfFuel
  -- a store through a null pointer
  | nullWrite
  -- an `int` operation whose result does not fit the 32 bits of an `int`
  | intOverflow
  deriving DecidableEq, Repr

deriving instance DecidableEq for Except

/-- The read `p[k]` for a pointer `p` into an object: the cell, or a fault outside the object. -/
def rd (p : List Nat) (k : Nat) : Except Fault Nat :=
  match p[k]? with
  | some b => .ok b
  | none => .error .readPastEnd

/-! ## Byte order of the host -/

/-- The two bytes of the 16-bit unit `v` in the order the host stores them:
`p[0]` and `p[1]` for `p = (char *)&v`. -/
def storedBytes (le : Bool) (v : Nat) : Nat × Nat :=
  if le then (v % 256, v / 256 % 256) else (v / 256 % 256, v % 256)

/-- The 16-bit unit the host reads from two consecutive stored bytes `b0 b1`. -/
def loadUnit (le : Bool) (b0 b1 : Nat) : Nat :=
  if le then b0 + 256 * b1 else 256 * b0 + b1

/-! ## 16-bit string primitives -/

/-- The loop of `str16len`: `while (*str16++) len++;` -/
def str16len.loop : List Nat → Nat → Except Fault Nat
  | [], _ => .error .readPastEnd
  | u :: rest, len => if u ≠ 0 then str16len.loop rest (len + 1) else .ok len

/-- The function `int str16len(char16 *str16)`: the number of units before the terminator. -/
def str16len (str16 : List Nat) : Except Fault Nat :=
  str16len.loop str16 0

/-- The loop of `str16chr`:
`while (*str16) { p = (char *)str16; if ((*p++ == 0) && (*p == ch)) return str16; str16++; }
return NULL;`  The position returned is counted in units from the start of the
string, `none` is `NULL`; `ch` is the byte value of the `char` argument. -/
def str16chr.loop (le : Bool) (ch : Nat) : List Nat → Nat → Except Fault (Option Nat)
  | [], _ => .error .readPastEnd
  | u :: rest, pos =>
    if u ≠ 0 then
      let p0 := (storedBytes le u).1
      let p1 := (storedBytes le u).2
      if p0 = 0 ∧ p1 = ch then .ok (some pos)
      else str16chr.loop le ch rest (pos + 1)
    else .ok none

/-- The function `char16 *str16chr(char16 *str16, char ch)` on a host of byte order `le`. -/
def str16chr (le : Bool) (str16 : List Nat) (ch : Nat) : Except Fault (Option Nat) :=
  str16chr.loop le ch str16 0

/-- The function `void str16ncpy(char16 *dest, char16 *src, size_t n)`:
`while ((n > 0) && *src) { *dest++ = *src++; n--; } *dest = 0;`
The result lists the units written through `dest`, in order; with `n = 0` the
test stops at `n > 0` and `*src` is not read. -/
def str16ncpy : List Nat → Nat → Except Fault (List Nat)
  | _, 0 => .ok [0]
  | [], _ + 1 => .error .readPastEnd
  | u :: rest, n + 1 =>
    if u ≠ 0 then
      match str16ncpy rest n with
      | .error e => .error e
      | .ok written => .ok (u :: written)
    else .ok [0]

/-! ## Length of a UTF-8 character -/

/-- The scan of `mbCharLen`: `while (c & mask) { count++; mask >>= 1; }`.
The mask is an `unsigned char` that loses its bit after eight shifts, so nine
rounds of fuel always reach the exit. -/
def mbCharLen.scan (c : Nat) : Nat → Nat → Nat → Nat
  | 0, _, count => count
  | fuel + 1, mask, count =>
    if c &&& mask ≠ 0 then mbCharLen.scan c fuel (mask >>> 1) (count + 1) else count

/-- The function `int mbCharLen(char *str)`: the number of bytes of the character at `str`,
0 at the end of the string and for a byte with exactly one leading 1 bit. -/
def mbCharLen (str : List Nat) : Except Fault Nat :=
  match rd str 0 with
  | .error e => .error e
  | .ok c =>
    if c ≠ 0 then
      match mbCharLen.scan c 9 0x80 0 with
      | 0 => .ok 1
      | 1 => .ok 0
      | count => .ok count
    else .ok 0

/-- The loop of `mbStrLen`: `while ((clen = mbCharLen(p)) > 0) { len++; p += clen; }`. -/
def mbStrLen.loop : Nat → List Nat → Nat → Except Fault Nat
  | 0, _, _ => .error .outOfFuel
  | fuel + 1, p, len =>
    match mbCharLen p with
    | .error e => .error e
    | .ok clen => if clen > 0 then mbStrLen.loop fuel (p.drop clen) (len + 1) else .ok len

/-- The function `int mbStrLen(char *str)`: the number of characters of a UTF-8 string.
Every round moves `p` at least one byte forward, so `str.length + 1` rounds
of fuel are never used up. -/
def mbStrLen (str : List Nat) : Except Fault Nat :=
  mbStrLen.loop (str.length + 1) str 0

/-! ## UTF-8 to UCS2 -/

/-- The `switch (clen)` of `UTF8toUCS2`: the unit stored through `p16` for the
character of `clen` bytes at `p`.  `'*'` is 0x2A, `'~'` is 0x7E; the
assignments to the `char16` cells are taken modulo 2^16. -/
def UTF8toUCS2.decodeChar (clen : Nat) (p : List Nat) : Except Fault Nat :=
  match clen with
  | 1 =>
    match rd p 0 with
    | .error e => .error e
    | .ok p0 => .ok (p0 % 65536)
  | 2 =>
    match rd p 1, rd p 0 with
    | .ok p1, .ok p0 =>
      let c16 := ((p1 &&& 0x3f) + ((p0 &&& 0x1f) <<< 6)) % 65536
      .ok (if c16 > 0x7f ∧ p1 &&& 0xC0 = 0x80 then c16 else 0x2A)
    | _, _ => .error .readPastEnd
  | 3 =>
    match rd p 2, rd p 1, rd p 0 with
    | .ok p2, .ok p1, .ok p0 =>
      let c16 := ((p2 &&& 0x3f) + ((p1 &&& 0x3f) <<< 6) + ((p0 &&& 0xf) <<< 12)) % 65536
      .ok (if c16 > 0x7ff ∧ p1 &&& 0xC0 = 0x80 ∧ p2 &&& 0xC0 = 0x80 then c16 else 0x2A)
    | _, _, _ => .error .readPastEnd
  | _ => .ok 0x7E

/-- The conversion loop of `UTF8toUCS2`:
`while ((clen = mbCharLen(p)) > 0) { switch ...; p16++; p += clen; } *p16 = 0;`
The result lists the units written through `p16`, the terminator included. -/
def UTF8toUCS2.loop : Nat → List Nat → Except Fault (List Nat)
  | 0, _ => .error .outOfFuel
  | fuel + 1, p =>
    match mbCharLen p with
    | .error e => .error e
    | .ok clen =>
      if clen > 0 then
        match UTF8toUCS2.decodeChar clen p with
        | .error e => .error e
        | .ok c16 =>
          match UTF8toUCS2.loop fuel (p.drop clen) with
          | .error e => .error e
          | .ok rest => .ok (c16 :: rest)
      else .ok [0]

/-- The byte swap of `UTF8toUCS2`, unit by unit:
`while (*src || *dest) { c = *dest; *dest = *src; *src = c; src += 2; dest += 2; }`
with `dest` on the first and `src` on the second stored byte of a unit. -/
def UTF8toUCS2.swap (le : Bool) : List Nat → Except Fault (List Nat)
  | [] => .error .readPastEnd
  | u :: rest =>
    let dest := (storedBytes le u).1
    let src := (storedBytes le u).2
    if src ≠ 0 ∨ dest ≠ 0 then
      match UTF8toUCS2.swap le rest with
      | .error e => .error e
      | .ok out => .ok (loadUnit le src dest :: out)
    else .ok (u :: rest)

/-- The function `char16 *UTF8toUCS2(char *str)` on a host of byte order `le`, `malloc`
succeeding.  The result lists the units of the returned buffer as the host
reads them through a `char16` pointer.  `testINTEL` is initialised to 0 in the
source, and the swap runs when its first stored byte is non-zero. -/
def UTF8toUCS2 (le : Bool) (str : List Nat) : Except Fault (List Nat) :=
  match mbStrLen str with
  | .error e => .error e
  | .ok _cInString =>
    match UTF8toUCS2.loop (str.length + 1) str with
    | .error e => .error e
    | .ok str16 =>
      let testINTEL := 0
      if (storedBytes le testINTEL).1 ≠ 0 then UTF8toUCS2.swap le str16 else .ok str16

/-- The function `UTF8toUCS2` with the outcome of `malloc` as a parameter
(`mallocOk = false`: `malloc` returns `NULL`).  The conversion is inside
`if (str16) { ... return str16; }`, followed by `return NULL;`: `none` is the
`NULL` result. -/
def UTF8toUCS2.alloc (mallocOk : Bool) (le : Bool) (str : List Nat) :
    Except Fault (Option (List Nat)) :=
  match mbStrLen str with
  | .error e => .error e
  | .ok _cInString =>
    if mallocOk then
      match UTF8toUCS2 le str with
      | .error e => .error e
      | .ok str16 => .ok (some str16)
    else .ok none

/-! ## UCS2 to UTF-8 -/

/-- The loop of `UCS2toUTF8`: `while (*p16 > 0) { p = (char *)p16; ...; p16++; } *p8 = 0;`
The result lists the bytes written through `p8`, the terminator included; a
store into a `char` keeps the low eight bits. -/
def UCS2toUTF8.loop (le : Bool) : List Nat → Except Fault (List Nat)
  | [] => .error .readPastEnd
  | u :: rest =>
    if u > 0 then
      let p0 := (storedBytes le u).1
      let p1 := (storedBytes le u).2
      let written :=
        if u < 0x0080 then
          [p0]
        else if u < 0x0800 then
          [(0xc0 ||| ((p1 &&& 0x7) <<< 2) ||| ((p0 &&& 0xc0) >>> 6)) % 256,
           (0x80 ||| (p0 &&& 0x3f)) % 256]
        else
          [(0xe0 ||| ((p1 &&& 0xf0) >>> 4)) % 256,
           (0x80 ||| ((p1 &&& 0xf) <<< 2) ||| ((p0 &&& 0xc0) >>> 6)) % 256,
           (0x80 ||| (p0 &&& 0x3f)) % 256]
      match UCS2toUTF8.loop le rest with
      | .error e => .error e
      | .ok out => .ok (written ++ out)
    else .ok [0]

/-- The function `char *UCS2toUTF8(char16 *str16)` on a host of byte order `le`, `malloc`
succeeding: `str16len` sizes the buffer, then the loop fills it. -/
def UCS2toUTF8 (le : Bool) (str16 : List Nat) : Except Fault (List Nat) :=
  match str16len str16 with
  | .error e => .error e
  | .ok _len16 => UCS2toUTF8.loop le str16

/-- The value a 32-bit two's-complement `int` holds for the result `x` of an
operation: what compiled code leaves in the register after an overflow. -/
def wrapInt32 (x : Int) : Int := (x + 2147483648) % 4294967296 - 2147483648

/-- The size in bytes of the buffer `UCS2toUTF8` asks `malloc` for:
`(len16 * 3 * sizeof(char)) + 1` with `int len16 = str16len(str16)`.  The
product `len16 * 3` is taken in `int` before the multiplication by
`sizeof(char)` converts it to `size_t`: above `INT_MAX = 2147483647` it is the
fault `Fault.intOverflow` (undefined behaviour in C). -/
def UCS2toUTF8.allocSize (str16 : List Nat) : Except Fault Nat :=
  match str16len str16 with
  | .error e => .error e
  | .ok len16 =>
    if len16 * 3 ≤ 2147483647 then .ok ((len16 * 3 * 1) + 1)
    else .error .intOverflow

/-- The function `UCS2toUTF8` with the outcome of `malloc` as a parameter
(`mallocOk = false`: `malloc` returns `NULL`).  The source does not test
`str8`: with `p8 = str8 = NULL` the first store `*p8 = ...`, which comes right
after the first read of `*p16`, is a store through the null pointer. -/
def UCS2toUTF8.alloc (mallocOk : Bool) (le : Bool) (str16 : List Nat) :
    Except Fault (Option (List Nat)) :=
  match str16len str16 with
  | .error e => .error e
  | .ok _len16 =>
    if mallocOk then
      match UCS2toUTF8.loop le str16 with
      | .error e => .error e
      | .ok str8 => .ok (some str8)
    else
      match rd str16 0 with
      | .error e => .error e
      | .ok _ => .error .nullWrite

/-! ## Canonical precomposition -/

/-- An entry of `table[]`: `struct { int precomposed; unsigned int pattern; }`. -/
structure Entry where
  precomposed : Int
  pattern : Nat
  deriving DecidableEq, Repr

/-- The static array `table[]`: the dummy entry `table[0]` and the 997 entries
sorted by pattern. -/
def table : List Entry := [
  Entry.mk 0x0000 0x00000000, Entry.mk 0x00C0 0x00410300, Entry.mk 0x00C1 0x00410301, Entry.mk 0x00C2 0x00410302,
  Entry.mk 0x00C3 0x00410303, Entry.mk 0x0100 0x00410304, Entry.mk 0x0102 0x00410306, Entry.mk 0x0226 0x00410307,
  Entry.mk 0x00C4 0x00410308, Entry.mk 0x1EA2 0x00410309, Entry.mk 0x00C5 0x0041030A, Entry.mk 0x01CD 0x0041030C,
  Entry.mk 0x0200 0x0041030F, Entry.mk 0x0202 0x00410311, Entry.mk 0x1EA0 0x00410323, Entry.mk 0x1E00 0x00410325,
  Entry.mk 0x0104 0x00410328, Entry.mk 0x1E02 0x00420307, Entry.mk 0x1E04 0x00420323, Entry.mk 0x1E06 0x00420331,
  Entry.mk 0x0106 0x00430301, Entry.mk 0x0108 0x00430302, Entry.mk 0x010A 0x00430307, Entry.mk 0x010C 0x0043030C,
  Entry.mk 0x00C7 0x00430327, Entry.mk 0x1E0A 0x00440307, Entry.mk 0x010E 0x0044030C, Entry.mk 0x1E0C 0x00440323,
  Entry.mk 0x1E10 0x00440327, Entry.mk 0x1E12 0x0044032D, Entry.mk 0x1E0E 0x00440331, Entry.mk 0x00C8 0x00450300,
  Entry.mk 0x00C9 0x00450301, Entry.mk 0x00CA 0x00450302, Entry.mk 0x1EBC 0x00450303, Entry.mk 0x0112 0x00450304,
  Entry.mk 0x0114 0x00450306, Entry.mk 0x0116 0x00450307, Entry.mk 0x00CB 0x00450308, Entry.mk 0x1EBA 0x00450309,
  Entry.mk 0x011A 0x0045030C, Entry.mk 0x0204 0x0045030F, Entry.mk 0x0206 0x00450311, Entry.mk 0x1EB8 0x00450323,
  Entry.mk 0x0228 0x00450327, Entry.mk 0x0118 0x00450328, Entry.mk 0x1E18 0x0045032D, Entry.mk 0x1E1A 0x00450330,
  Entry.mk 0x1E1E 0x00460307, Entry.mk 0x01F4 0x00470301, Entry.mk 0x011C 0x00470302, Entry.mk 0x1E20 0x00470304,
  Entry.mk 0x011E 0x00470306, Entry.mk 0x0120 0x00470307, Entry.mk 0x01E6 0x0047030C, Entry.mk 0x0122 0x00470327,
  Entry.mk 0x0124 0x00480302, Entry.mk 0x1E22 0x00480307, Entry.mk 0x1E26 0x00480308, Entry.mk 0x021E 0x0048030C,
  Entry.mk 0x1E24 0x00480323, Entry.mk 0x1E28 0x00480327, Entry.mk 0x1E2A 0x0048032E, Entry.mk 0x00CC 0x00490300,
  Entry.mk 0x00CD 0x00490301, Entry.mk 0x00CE 0x00490302, Entry.mk 0x0128 0x00490303, Entry.mk 0x012A 0x00490304,
  Entry.mk 0x012C 0x00490306, Entry.mk 0x0130 0x00490307, Entry.mk 0x00CF 0x00490308, Entry.mk 0x1EC8 0x00490309,
  Entry.mk 0x01CF 0x0049030C, Entry.mk 0x0208 0x0049030F, Entry.mk 0x020A 0x00490311, Entry.mk 0x1ECA 0x00490323,
  Entry.mk 0x012E 0x00490328, Entry.mk 0x1E2C 0x00490330, Entry.mk 0x0134 0x004A0302, Entry.mk 0x1E30 0x004B0301,
  Entry.mk 0x01E8 0x004B030C, Entry.mk 0x1E32 0x004B0323, Entry.mk 0x0136 0x004B0327, Entry.mk 0x1E34 0x004B0331,
  Entry.mk 0x0139 0x004C0301, Entry.mk 0x013D 0x004C030C, Entry.mk 0x1E36 0x004C0323, Entry.mk 0x013B 0x004C0327,
  Entry.mk 0x1E3C 0x004C032D, Entry.mk 0x1E3A 0x004C0331, Entry.mk 0x1E3E 0x004D0301, Entry.mk 0x1E40 0x004D0307,
  Entry.mk 0x1E42 0x004D0323, Entry.mk 0x01F8 0x004E0300, Entry.mk 0x0143 0x004E0301, Entry.mk 0x00D1 0x004E0303,
  Entry.mk 0x1E44 0x004E0307, Entry.mk 0x0147 0x004E030C, Entry.mk 0x1E46 0x004E0323, Entry.mk 0x0145 0x004E0327,
  Entry.mk 0x1E4A 0x004E032D, Entry.mk 0x1E48 0x004E0331, Entry.mk 0x00D2 0x004F0300, Entry.mk 0x00D3 0x004F0301,
  Entry.mk 0x00D4 0x004F0302, Entry.mk 0x00D5 0x004F0303, Entry.mk 0x014C 0x004F0304, Entry.mk 0x014E 0x004F0306,
  Entry.mk 0x022E 0x004F0307, Entry.mk 0x00D6 0x004F0308, Entry.mk 0x1ECE 0x004F0309, Entry.mk 0x0150 0x004F030B,
  Entry.mk 0x01D1 0x004F030C, Entry.mk 0x020C 0x004F030F, Entry.mk 0x020E 0x004F0311, Entry.mk 0x01A0 0x004F031B,
  Entry.mk 0x1ECC 0x004F0323, Entry.mk 0x01EA 0x004F0328, Entry.mk 0x1E54 0x00500301, Entry.mk 0x1E56 0x00500307,
  Entry.mk 0x0154 0x00520301, Entry.mk 0x1E58 0x00520307, Entry.mk 0x0158 0x0052030C, Entry.mk 0x0210 0x0052030F,
  Entry.mk 0x0212 0x00520311, Entry.mk 0x1E5A 0x00520323, Entry.mk 0x0156 0x00520327, Entry.mk 0x1E5E 0x00520331,
  Entry.mk 0x015A 0x00530301, Entry.mk 0x015C 0x00530302, Entry.mk 0x1E60 0x00530307, Entry.mk 0x0160 0x0053030C,
  Entry.mk 0x1E62 0x00530323, Entry.mk 0x0218 0x00530326, Entry.mk 0x015E 0x00530327, Entry.mk 0x1E6A 0x00540307,
  Entry.mk 0x0164 0x0054030C, Entry.mk 0x1E6C 0x00540323, Entry.mk 0x021A 0x00540326, Entry.mk 0x0162 0x00540327,
  Entry.mk 0x1E70 0x0054032D, Entry.mk 0x1E6E 0x00540331, Entry.mk 0x00D9 0x00550300, Entry.mk 0x00DA 0x00550301,
  Entry.mk 0x00DB 0x00550302, Entry.mk 0x0168 0x00550303, Entry.mk 0x016A 0x00550304, Entry.mk 0x016C 0x00550306,
  Entry.mk 0x00DC 0x00550308, Entry.mk 0x1EE6 0x00550309, Entry.mk 0x016E 0x0055030A, Entry.mk 0x0170 0x0055030B,
  Entry.mk 0x01D3 0x0055030C, Entry.mk 0x0214 0x0055030F, Entry.mk 0x0216 0x00550311, Entry.mk 0x01AF 0x0055031B,
  Entry.mk 0x1EE4 0x00550323, Entry.mk 0x1E72 0x00550324, Entry.mk 0x0172 0x00550328, Entry.mk 0x1E76 0x0055032D,
  Entry.mk 0x1E74 0x00550330, Entry.mk 0x1E7C 0x00560303, Entry.mk 0x1E7E 0x00560323, Entry.mk 0x1E80 0x00570300,
  Entry.mk 0x1E82 0x00570301, Entry.mk 0x0174 0x00570302, Entry.mk 0x1E86 0x00570307, Entry.mk 0x1E84 0x00570308,
  Entry.mk 0x1E88 0x00570323, Entry.mk 0x1E8A 0x00580307, Entry.mk 0x1E8C 0x00580308, Entry.mk 0x1EF2 0x00590300,
  Entry.mk 0x00DD 0x00590301, Entry.mk 0x0176 0x00590302, Entry.mk 0x1EF8 0x00590303, Entry.mk 0x0232 0x00590304,
  Entry.mk 0x1E8E 0x00590307, Entry.mk 0x0178 0x00590308, Entry.mk 0x1EF6 0x00590309, Entry.mk 0x1EF4 0x00590323,
  Entry.mk 0x0179 0x005A0301, Entry.mk 0x1E90 0x005A0302, Entry.mk 0x017B 0x005A0307, Entry.mk 0x017D 0x005A030C,
  Entry.mk 0x1E92 0x005A0323, Entry.mk 0x1E94 0x005A0331, Entry.mk 0x00E0 0x00610300, Entry.mk 0x00E1 0x00610301,
  Entry.mk 0x00E2 0x00610302, Entry.mk 0x00E3 0x00610303, Entry.mk 0x0101 0x00610304, Entry.mk 0x0103 0x00610306,
  Entry.mk 0x0227 0x00610307, Entry.mk 0x00E4 0x00610308, Entry.mk 0x1EA3 0x00610309, Entry.mk 0x00E5 0x0061030A,
  Entry.mk 0x01CE 0x0061030C, Entry.mk 0x0201 0x0061030F, Entry.mk 0x0203 0x00610311, Entry.mk 0x1EA1 0x00610323,
  Entry.mk 0x1E01 0x00610325, Entry.mk 0x0105 0x00610328, Entry.mk 0x1E03 0x00620307, Entry.mk 0x1E05 0x00620323,
  Entry.mk 0x1E07 0x00620331, Entry.mk 0x0107 0x00630301, Entry.mk 0x0109 0x00630302, Entry.mk 0x010B 0x00630307,
  Entry.mk 0x010D 0x0063030C, Entry.mk 0x00E7 0x00630327, Entry.mk 0x1E0B 0x00640307, Entry.mk 0x010F 0x0064030C,
  Entry.mk 0x1E0D 0x00640323, Entry.mk 0x1E11 0x00640327, Entry.mk 0x1E13 0x0064032D, Entry.mk 0x1E0F 0x00640331,
  Entry.mk 0x00E8 0x00650300, Entry.mk 0x00E9 0x00650301, Entry.mk 0x00EA 0x00650302, Entry.mk 0x1EBD 0x00650303,
  Entry.mk 0x0113 0x00650304, Entry.mk 0x0115 0x00650306, Entry.mk 0x0117 0x00650307, Entry.mk 0x00EB 0x00650308,
  Entry.mk 0x1EBB 0x00650309, Entry.mk 0x011B 0x0065030C, Entry.mk 0x0205 0x0065030F, Entry.mk 0x0207 0x00650311,
  Entry.mk 0x1EB9 0x00650323, Entry.mk 0x0229 0x00650327, Entry.mk 0x0119 0x00650328, Entry.mk 0x1E19 0x0065032D,
  Entry.mk 0x1E1B 0x00650330, Entry.mk 0x1E1F 0x00660307, Entry.mk 0x01F5 0x00670301, Entry.mk 0x011D 0x00670302,
  Entry.mk 0x1E21 0x00670304, Entry.mk 0x011F 0x00670306, Entry.mk 0x0121 0x00670307, Entry.mk 0x01E7 0x0067030C,
  Entry.mk 0x0123 0x00670327, Entry.mk 0x0125 0x00680302, Entry.mk 0x1E23 0x00680307, Entry.mk 0x1E27 0x00680308,
  Entry.mk 0x021F 0x0068030C, Entry.mk 0x1E25 0x00680323, Entry.mk 0x1E29 0x00680327, Entry.mk 0x1E2B 0x0068032E,
  Entry.mk 0x1E96 0x00680331, Entry.mk 0x00EC 0x00690300, Entry.mk 0x00ED 0x00690301, Entry.mk 0x00EE 0x00690302,
  Entry.mk 0x0129 0x00690303, Entry.mk 0x012B 0x00690304, Entry.mk 0x012D 0x00690306, Entry.mk 0x00EF 0x00690308,
  Entry.mk 0x1EC9 0x00690309, Entry.mk 0x01D0 0x0069030C, Entry.mk 0x0209 0x0069030F, Entry.mk 0x020B 0x00690311,
  Entry.mk 0x1ECB 0x00690323, Entry.mk 0x012F 0x00690328, Entry.mk 0x1E2D 0x00690330, Entry.mk 0x0135 0x006A0302,
  Entry.mk 0x01F0 0x006A030C, Entry.mk 0x1E31 0x006B0301, Entry.mk 0x01E9 0x006B030C, Entry.mk 0x1E33 0x006B0323,
  Entry.mk 0x0137 0x006B0327, Entry.mk 0x1E35 0x006B0331, Entry.mk 0x013A 0x006C0301, Entry.mk 0x013E 0x006C030C,
  Entry.mk 0x1E37 0x006C0323, Entry.mk 0x013C 0x006C0327, Entry.mk 0x1E3D 0x006C032D, Entry.mk 0x1E3B 0x006C0331,
  Entry.mk 0x1E3F 0x006D0301, Entry.mk 0x1E41 0x006D0307, Entry.mk 0x1E43 0x006D0323, Entry.mk 0x01F9 0x006E0300,
  Entry.mk 0x0144 0x006E0301, Entry.mk 0x00F1 0x006E0303, Entry.mk 0x1E45 0x006E0307, Entry.mk 0x0148 0x006E030C,
  Entry.mk 0x1E47 0x006E0323, Entry.mk 0x0146 0x006E0327, Entry.mk 0x1E4B 0x006E032D, Entry.mk 0x1E49 0x006E0331,
  Entry.mk 0x00F2 0x006F0300, Entry.mk 0x00F3 0x006F0301, Entry.mk 0x00F4 0x006F0302, Entry.mk 0x00F5 0x006F0303,
  Entry.mk 0x014D 0x006F0304, Entry.mk 0x014F 0x006F0306, Entry.mk 0x022F 0x006F0307, Entry.mk 0x00F6 0x006F0308,
  Entry.mk 0x1ECF 0x006F0309, Entry.mk 0x0151 0x006F030B, Entry.mk 0x01D2 0x006F030C, Entry.mk 0x020D 0x006F030F,
  Entry.mk 0x020F 0x006F0311, Entry.mk 0x01A1 0x006F031B, Entry.mk 0x1ECD 0x006F0323, Entry.mk 0x01EB 0x006F0328,
  Entry.mk 0x1E55 0x00700301, Entry.mk 0x1E57 0x00700307, Entry.mk 0x0155 0x00720301, Entry.mk 0x1E59 0x00720307,
  Entry.mk 0x0159 0x0072030C, Entry.mk 0x0211 0x0072030F, Entry.mk 0x0213 0x00720311, Entry.mk 0x1E5B 0x00720323,
  Entry.mk 0x0157 0x00720327, Entry.mk 0x1E5F 0x00720331, Entry.mk 0x015B 0x00730301, Entry.mk 0x015D 0x00730302,
  Entry.mk 0x1E61 0x00730307, Entry.mk 0x0161 0x0073030C, Entry.mk 0x1E63 0x00730323, Entry.mk 0x0219 0x00730326,
  Entry.mk 0x015F 0x00730327, Entry.mk 0x1E6B 0x00740307, Entry.mk 0x1E97 0x00740308, Entry.mk 0x0165 0x0074030C,
  Entry.mk 0x1E6D 0x00740323, Entry.mk 0x021B 0x00740326, Entry.mk 0x0163 0x00740327, Entry.mk 0x1E71 0x0074032D,
  Entry.mk 0x1E6F 0x00740331, Entry.mk 0x00F9 0x00750300, Entry.mk 0x00FA 0x00750301, Entry.mk 0x00FB 0x00750302,
  Entry.mk 0x0169 0x00750303, Entry.mk 0x016B 0x00750304, Entry.mk 0x016D 0x00750306, Entry.mk 0x00FC 0x00750308,
  Entry.mk 0x1EE7 0x00750309, Entry.mk 0x016F 0x0075030A, Entry.mk 0x0171 0x0075030B, Entry.mk 0x01D4 0x0075030C,
  Entry.mk 0x0215 0x0075030F, Entry.mk 0x0217 0x00750311, Entry.mk 0x01B0 0x0075031B, Entry.mk 0x1EE5 0x00750323,
  Entry.mk 0x1E73 0x00750324, Entry.mk 0x0173 0x00750328, Entry.mk 0x1E77 0x0075032D, Entry.mk 0x1E75 0x00750330,
  Entry.mk 0x1E7D 0x00760303, Entry.mk 0x1E7F 0x00760323, Entry.mk 0x1E81 0x00770300, Entry.mk 0x1E83 0x00770301,
  Entry.mk 0x0175 0x00770302, Entry.mk 0x1E87 0x00770307, Entry.mk 0x1E85 0x00770308, Entry.mk 0x1E98 0x0077030A,
  Entry.mk 0x1E89 0x00770323, Entry.mk 0x1E8B 0x00780307, Entry.mk 0x1E8D 0x00780308, Entry.mk 0x1EF3 0x00790300,
  Entry.mk 0x00FD 0x00790301, Entry.mk 0x0177 0x00790302, Entry.mk 0x1EF9 0x00790303, Entry.mk 0x0233 0x00790304,
  Entry.mk 0x1E8F 0x00790307, Entry.mk 0x00FF 0x00790308, Entry.mk 0x1EF7 0x00790309, Entry.mk 0x1E99 0x0079030A,
  Entry.mk 0x1EF5 0x00790323, Entry.mk 0x017A 0x007A0301, Entry.mk 0x1E91 0x007A0302, Entry.mk 0x017C 0x007A0307,
  Entry.mk 0x017E 0x007A030C, Entry.mk 0x1E93 0x007A0323, Entry.mk 0x1E95 0x007A0331, Entry.mk 0x1FED 0x00A80300,
  Entry.mk 0x0385 0x00A80301, Entry.mk 0x1FC1 0x00A80342, Entry.mk 0x1EA6 0x00C20300, Entry.mk 0x1EA4 0x00C20301,
  Entry.mk 0x1EAA 0x00C20303, Entry.mk 0x1EA8 0x00C20309, Entry.mk 0x01DE 0x00C40304, Entry.mk 0x01FA 0x00C50301,
  Entry.mk 0x01FC 0x00C60301, Entry.mk 0x01E2 0x00C60304, Entry.mk 0x1E08 0x00C70301, Entry.mk 0x1EC0 0x00CA0300,
  Entry.mk 0x1EBE 0x00CA0301, Entry.mk 0x1EC4 0x00CA0303, Entry.mk 0x1EC2 0x00CA0309, Entry.mk 0x1E2E 0x00CF0301,
  Entry.mk 0x1ED2 0x00D40300, Entry.mk 0x1ED0 0x00D40301, Entry.mk 0x1ED6 0x00D40303, Entry.mk 0x1ED4 0x00D40309,
  Entry.mk 0x1E4C 0x00D50301, Entry.mk 0x022C 0x00D50304, Entry.mk 0x1E4E 0x00D50308, Entry.mk 0x022A 0x00D60304,
  Entry.mk 0x01FE 0x00D80301, Entry.mk 0x01DB 0x00DC0300, Entry.mk 0x01D7 0x00DC0301, Entry.mk 0x01D5 0x00DC0304,
  Entry.mk 0x01D9 0x00DC030C, Entry.mk 0x1EA7 0x00E20300, Entry.mk 0x1EA5 0x00E20301, Entry.mk 0x1EAB 0x00E20303,
  Entry.mk 0x1EA9 0x00E20309, Entry.mk 0x01DF 0x00E40304, Entry.mk 0x01FB 0x00E50301, Entry.mk 0x01FD 0x00E60301,
  Entry.mk 0x01E3 0x00E60304, Entry.mk 0x1E09 0x00E70301, Entry.mk 0x1EC1 0x00EA0300, Entry.mk 0x1EBF 0x00EA0301,
  Entry.mk 0x1EC5 0x00EA0303, Entry.mk 0x1EC3 0x00EA0309, Entry.mk 0x1E2F 0x00EF0301, Entry.mk 0x1ED3 0x00F40300,
  Entry.mk 0x1ED1 0x00F40301, Entry.mk 0x1ED7 0x00F40303, Entry.mk 0x1ED5 0x00F40309, Entry.mk 0x1E4D 0x00F50301,
  Entry.mk 0x022D 0x00F50304, Entry.mk 0x1E4F 0x00F50308, Entry.mk 0x022B 0x00F60304, Entry.mk 0x01FF 0x00F80301,
  Entry.mk 0x01DC 0x00FC0300, Entry.mk 0x01D8 0x00FC0301, Entry.mk 0x01D6 0x00FC0304, Entry.mk 0x01DA 0x00FC030C,
  Entry.mk 0x1EB0 0x01020300, Entry.mk 0x1EAE 0x01020301, Entry.mk 0x1EB4 0x01020303, Entry.mk 0x1EB2 0x01020309,
  Entry.mk 0x1EB1 0x01030300, Entry.mk 0x1EAF 0x01030301, Entry.mk 0x1EB5 0x01030303, Entry.mk 0x1EB3 0x01030309,
  Entry.mk 0x1E14 0x01120300, Entry.mk 0x1E16 0x01120301, Entry.mk 0x1E15 0x01130300, Entry.mk 0x1E17 0x01130301,
  Entry.mk 0x1E50 0x014C0300, Entry.mk 0x1E52 0x014C0301, Entry.mk 0x1E51 0x014D0300, Entry.mk 0x1E53 0x014D0301,
  Entry.mk 0x1E64 0x015A0307, Entry.mk 0x1E65 0x015B0307, Entry.mk 0x1E66 0x01600307, Entry.mk 0x1E67 0x01610307,
  Entry.mk 0x1E78 0x01680301, Entry.mk 0x1E79 0x01690301, Entry.mk 0x1E7A 0x016A0308, Entry.mk 0x1E7B 0x016B0308,
  Entry.mk 0x1E9B 0x017F0307, Entry.mk 0x1EDC 0x01A00300, Entry.mk 0x1EDA 0x01A00301, Entry.mk 0x1EE0 0x01A00303,
  Entry.mk 0x1EDE 0x01A00309, Entry.mk 0x1EE2 0x01A00323, Entry.mk 0x1EDD 0x01A10300, Entry.mk 0x1EDB 0x01A10301,
  Entry.mk 0x1EE1 0x01A10303, Entry.mk 0x1EDF 0x01A10309, Entry.mk 0x1EE3 0x01A10323, Entry.mk 0x1EEA 0x01AF0300,
  Entry.mk 0x1EE8 0x01AF0301, Entry.mk 0x1EEE 0x01AF0303, Entry.mk 0x1EEC 0x01AF0309, Entry.mk 0x1EF0 0x01AF0323,
  Entry.mk 0x1EEB 0x01B00300, Entry.mk 0x1EE9 0x01B00301, Entry.mk 0x1EEF 0x01B00303, Entry.mk 0x1EED 0x01B00309,
  Entry.mk 0x1EF1 0x01B00323, Entry.mk 0x01EE 0x01B7030C, Entry.mk 0x01EC 0x01EA0304, Entry.mk 0x01ED 0x01EB0304,
  Entry.mk 0x01E0 0x02260304, Entry.mk 0x01E1 0x02270304, Entry.mk 0x1E1C 0x02280306, Entry.mk 0x1E1D 0x02290306,
  Entry.mk 0x0230 0x022E0304, Entry.mk 0x0231 0x022F0304, Entry.mk 0x01EF 0x0292030C, Entry.mk 0x0344 0x03080301,
  Entry.mk 0x1FBA 0x03910300, Entry.mk 0x0386 0x03910301, Entry.mk 0x1FB9 0x03910304, Entry.mk 0x1FB8 0x03910306,
  Entry.mk 0x1F08 0x03910313, Entry.mk 0x1F09 0x03910314, Entry.mk 0x1FBC 0x03910345, Entry.mk 0x1FC8 0x03950300,
  Entry.mk 0x0388 0x03950301, Entry.mk 0x1F18 0x03950313, Entry.mk 0x1F19 0x03950314, Entry.mk 0x1FCA 0x03970300,
  Entry.mk 0x0389 0x03970301, Entry.mk 0x1F28 0x03970313, Entry.mk 0x1F29 0x03970314, Entry.mk 0x1FCC 0x03970345,
  Entry.mk 0x1FDA 0x03990300, Entry.mk 0x038A 0x03990301, Entry.mk 0x1FD9 0x03990304, Entry.mk 0x1FD8 0x03990306,
  Entry.mk 0x03AA 0x03990308, Entry.mk 0x1F38 0x03990313, Entry.mk 0x1F39 0x03990314, Entry.mk 0x1FF8 0x039F0300,
  Entry.mk 0x038C 0x039F0301, Entry.mk 0x1F48 0x039F0313, Entry.mk 0x1F49 0x039F0314, Entry.mk 0x1FEC 0x03A10314,
  Entry.mk 0x1FEA 0x03A50300, Entry.mk 0x038E 0x03A50301, Entry.mk 0x1FE9 0x03A50304, Entry.mk 0x1FE8 0x03A50306,
  Entry.mk 0x03AB 0x03A50308, Entry.mk 0x1F59 0x03A50314, Entry.mk 0x1FFA 0x03A90300, Entry.mk 0x038F 0x03A90301,
  Entry.mk 0x1F68 0x03A90313, Entry.mk 0x1F69 0x03A90314, Entry.mk 0x1FFC 0x03A90345, Entry.mk 0x1FB4 0x03AC0345,
  Entry.mk 0x1FC4 0x03AE0345, Entry.mk 0x1F70 0x03B10300, Entry.mk 0x03AC 0x03B10301, Entry.mk 0x1FB1 0x03B10304,
  Entry.mk 0x1FB0 0x03B10306, Entry.mk 0x1F00 0x03B10313, Entry.mk 0x1F01 0x03B10314, Entry.mk 0x1FB6 0x03B10342,
  Entry.mk 0x1FB3 0x03B10345, Entry.mk 0x1F72 0x03B50300, Entry.mk 0x03AD 0x03B50301, Entry.mk 0x1F10 0x03B50313,
  Entry.mk 0x1F11 0x03B50314, Entry.mk 0x1F74 0x03B70300, Entry.mk 0x03AE 0x03B70301, Entry.mk 0x1F20 0x03B70313,
  Entry.mk 0x1F21 0x03B70314, Entry.mk 0x1FC6 0x03B70342, Entry.mk 0x1FC3 0x03B70345, Entry.mk 0x1F76 0x03B90300,
  Entry.mk 0x03AF 0x03B90301, Entry.mk 0x1FD1 0x03B90304, Entry.mk 0x1FD0 0x03B90306, Entry.mk 0x03CA 0x03B90308,
  Entry.mk 0x1F30 0x03B90313, Entry.mk 0x1F31 0x03B90314, Entry.mk 0x1FD6 0x03B90342, Entry.mk 0x1F78 0x03BF0300,
  Entry.mk 0x03CC 0x03BF0301, Entry.mk 0x1F40 0x03BF0313, Entry.mk 0x1F41 0x03BF0314, Entry.mk 0x1FE4 0x03C10313,
  Entry.mk 0x1FE5 0x03C10314, Entry.mk 0x1F7A 0x03C50300, Entry.mk 0x03CD 0x03C50301, Entry.mk 0x1FE1 0x03C50304,
  Entry.mk 0x1FE0 0x03C50306, Entry.mk 0x03CB 0x03C50308, Entry.mk 0x1F50 0x03C50313, Entry.mk 0x1F51 0x03C50314,
  Entry.mk 0x1FE6 0x03C50342, Entry.mk 0x1F7C 0x03C90300, Entry.mk 0x03CE 0x03C90301, Entry.mk 0x1F60 0x03C90313,
  Entry.mk 0x1F61 0x03C90314, Entry.mk 0x1FF6 0x03C90342, Entry.mk 0x1FF3 0x03C90345, Entry.mk 0x1FD2 0x03CA0300,
  Entry.mk 0x0390 0x03CA0301, Entry.mk 0x1FD7 0x03CA0342, Entry.mk 0x1FE2 0x03CB0300, Entry.mk 0x03B0 0x03CB0301,
  Entry.mk 0x1FE7 0x03CB0342, Entry.mk 0x1FF4 0x03CE0345, Entry.mk 0x03D3 0x03D20301, Entry.mk 0x03D4 0x03D20308,
  Entry.mk 0x0407 0x04060308, Entry.mk 0x04D0 0x04100306, Entry.mk 0x04D2 0x04100308, Entry.mk 0x0403 0x04130301,
  Entry.mk 0x0400 0x04150300, Entry.mk 0x04D6 0x04150306, Entry.mk 0x0401 0x04150308, Entry.mk 0x04C1 0x04160306,
  Entry.mk 0x04DC 0x04160308, Entry.mk 0x04DE 0x04170308, Entry.mk 0x040D 0x04180300, Entry.mk 0x04E2 0x04180304,
  Entry.mk 0x0419 0x04180306, Entry.mk 0x04E4 0x04180308, Entry.mk 0x040C 0x041A0301, Entry.mk 0x04E6 0x041E0308,
  Entry.mk 0x04EE 0x04230304, Entry.mk 0x040E 0x04230306, Entry.mk 0x04F0 0x04230308, Entry.mk 0x04F2 0x0423030B,
  Entry.mk 0x04F4 0x04270308, Entry.mk 0x04F8 0x042B0308, Entry.mk 0x04EC 0x042D0308, Entry.mk 0x04D1 0x04300306,
  Entry.mk 0x04D3 0x04300308, Entry.mk 0x0453 0x04330301, Entry.mk 0x0450 0x04350300, Entry.mk 0x04D7 0x04350306,
  Entry.mk 0x0451 0x04350308, Entry.mk 0x04C2 0x04360306, Entry.mk 0x04DD 0x04360308, Entry.mk 0x04DF 0x04370308,
  Entry.mk 0x045D 0x04380300, Entry.mk 0x04E3 0x04380304, Entry.mk 0x0439 0x04380306, Entry.mk 0x04E5 0x04380308,
  Entry.mk 0x045C 0x043A0301, Entry.mk 0x04E7 0x043E0308, Entry.mk 0x04EF 0x04430304, Entry.mk 0x045E 0x04430306,
  Entry.mk 0x04F1 0x04430308, Entry.mk 0x04F3 0x0443030B, Entry.mk 0x04F5 0x04470308, Entry.mk 0x04F9 0x044B0308,
  Entry.mk 0x04ED 0x044D0308, Entry.mk 0x0457 0x04560308, Entry.mk 0x0476 0x0474030F, Entry.mk 0x0477 0x0475030F,
  Entry.mk 0x04DA 0x04D80308, Entry.mk 0x04DB 0x04D90308, Entry.mk 0x04EA 0x04E80308, Entry.mk 0x04EB 0x04E90308,
  Entry.mk 0xFB2E 0x05D005B7, Entry.mk 0xFB2F 0x05D005B8, Entry.mk 0xFB30 0x05D005BC, Entry.mk 0xFB31 0x05D105BC,
  Entry.mk 0xFB4C 0x05D105BF, Entry.mk 0xFB32 0x05D205BC, Entry.mk 0xFB33 0x05D305BC, Entry.mk 0xFB34 0x05D405BC,
  Entry.mk 0xFB4B 0x05D505B9, Entry.mk 0xFB35 0x05D505BC, Entry.mk 0xFB36 0x05D605BC, Entry.mk 0xFB38 0x05D805BC,
  Entry.mk 0xFB1D 0x05D905B4, Entry.mk 0xFB39 0x05D905BC, Entry.mk 0xFB3A 0x05DA05BC, Entry.mk 0xFB3B 0x05DB05BC,
  Entry.mk 0xFB4D 0x05DB05BF, Entry.mk 0xFB3C 0x05DC05BC, Entry.mk 0xFB3E 0x05DE05BC, Entry.mk 0xFB40 0x05E005BC,
  Entry.mk 0xFB41 0x05E105BC, Entry.mk 0xFB43 0x05E305BC, Entry.mk 0xFB44 0x05E405BC, Entry.mk 0xFB4E 0x05E405BF,
  Entry.mk 0xFB46 0x05E605BC, Entry.mk 0xFB47 0x05E705BC, Entry.mk 0xFB48 0x05E805BC, Entry.mk 0xFB49 0x05E905BC,
  Entry.mk 0xFB2A 0x05E905C1, Entry.mk 0xFB2B 0x05E905C2, Entry.mk 0xFB4A 0x05EA05BC, Entry.mk 0xFB1F 0x05F205B7,
  Entry.mk 0x0622 0x06270653, Entry.mk 0x0623 0x06270654, Entry.mk 0x0625 0x06270655, Entry.mk 0x0624 0x06480654,
  Entry.mk 0x0626 0x064A0654, Entry.mk 0x06C2 0x06C10654, Entry.mk 0x06D3 0x06D20654, Entry.mk 0x06C0 0x06D50654,
  Entry.mk 0x0958 0x0915093C, Entry.mk 0x0959 0x0916093C, Entry.mk 0x095A 0x0917093C, Entry.mk 0x095B 0x091C093C,
  Entry.mk 0x095C 0x0921093C, Entry.mk 0x095D 0x0922093C, Entry.mk 0x0929 0x0928093C, Entry.mk 0x095E 0x092B093C,
  Entry.mk 0x095F 0x092F093C, Entry.mk 0x0931 0x0930093C, Entry.mk 0x0934 0x0933093C, Entry.mk 0x09DC 0x09A109BC,
  Entry.mk 0x09DD 0x09A209BC, Entry.mk 0x09DF 0x09AF09BC, Entry.mk 0x09CB 0x09C709BE, Entry.mk 0x09CC 0x09C709D7,
  Entry.mk 0x0A59 0x0A160A3C, Entry.mk 0x0A5A 0x0A170A3C, Entry.mk 0x0A5B 0x0A1C0A3C, Entry.mk 0x0A5E 0x0A2B0A3C,
  Entry.mk 0x0A33 0x0A320A3C, Entry.mk 0x0A36 0x0A380A3C, Entry.mk 0x0B5C 0x0B210B3C, Entry.mk 0x0B5D 0x0B220B3C,
  Entry.mk 0x0B4B 0x0B470B3E, Entry.mk 0x0B48 0x0B470B56, Entry.mk 0x0B4C 0x0B470B57, Entry.mk 0x0B94 0x0B920BD7,
  Entry.mk 0x0BCA 0x0BC60BBE, Entry.mk 0x0BCC 0x0BC60BD7, Entry.mk 0x0BCB 0x0BC70BBE, Entry.mk 0x0C48 0x0C460C56,
  Entry.mk 0x0CC0 0x0CBF0CD5, Entry.mk 0x0CCA 0x0CC60CC2, Entry.mk 0x0CC7 0x0CC60CD5, Entry.mk 0x0CC8 0x0CC60CD6,
  Entry.mk 0x0CCB 0x0CCA0CD5, Entry.mk 0x0D4A 0x0D460D3E, Entry.mk 0x0D4C 0x0D460D57, Entry.mk 0x0D4B 0x0D470D3E,
  Entry.mk 0x0DDA 0x0DD90DCA, Entry.mk 0x0DDC 0x0DD90DCF, Entry.mk 0x0DDE 0x0DD90DDF, Entry.mk 0x0DDD 0x0DDC0DCA,
  Entry.mk 0x0F69 0x0F400FB5, Entry.mk 0x0F43 0x0F420FB7, Entry.mk 0x0F4D 0x0F4C0FB7, Entry.mk 0x0F52 0x0F510FB7,
  Entry.mk 0x0F57 0x0F560FB7, Entry.mk 0x0F5C 0x0F5B0FB7, Entry.mk 0x0F73 0x0F710F72, Entry.mk 0x0F75 0x0F710F74,
  Entry.mk 0x0F81 0x0F710F80, Entry.mk 0x0FB9 0x0F900FB5, Entry.mk 0x0F93 0x0F920FB7, Entry.mk 0x0F9D 0x0F9C0FB7,
  Entry.mk 0x0FA2 0x0FA10FB7, Entry.mk 0x0FA7 0x0FA60FB7, Entry.mk 0x0FAC 0x0FAB0FB7, Entry.mk 0x0F76 0x0FB20F80,
  Entry.mk 0x0F78 0x0FB30F80, Entry.mk 0x1026 0x1025102E, Entry.mk 0x1B06 0x1B051B35, Entry.mk 0x1B08 0x1B071B35,
  Entry.mk 0x1B0A 0x1B091B35, Entry.mk 0x1B0C 0x1B0B1B35, Entry.mk 0x1B0E 0x1B0D1B35, Entry.mk 0x1B12 0x1B111B35,
  Entry.mk 0x1B3B 0x1B3A1B35, Entry.mk 0x1B3D 0x1B3C1B35, Entry.mk 0x1B40 0x1B3E1B35, Entry.mk 0x1B41 0x1B3F1B35,
  Entry.mk 0x1B43 0x1B421B35, Entry.mk 0x1E38 0x1E360304, Entry.mk 0x1E39 0x1E370304, Entry.mk 0x1E5C 0x1E5A0304,
  Entry.mk 0x1E5D 0x1E5B0304, Entry.mk 0x1E68 0x1E620307, Entry.mk 0x1E69 0x1E630307, Entry.mk 0x1EAC 0x1EA00302,
  Entry.mk 0x1EB6 0x1EA00306, Entry.mk 0x1EAD 0x1EA10302, Entry.mk 0x1EB7 0x1EA10306, Entry.mk 0x1EC6 0x1EB80302,
  Entry.mk 0x1EC7 0x1EB90302, Entry.mk 0x1ED8 0x1ECC0302, Entry.mk 0x1ED9 0x1ECD0302, Entry.mk 0x1F02 0x1F000300,
  Entry.mk 0x1F04 0x1F000301, Entry.mk 0x1F06 0x1F000342, Entry.mk 0x1F80 0x1F000345, Entry.mk 0x1F03 0x1F010300,
  Entry.mk 0x1F05 0x1F010301, Entry.mk 0x1F07 0x1F010342, Entry.mk 0x1F81 0x1F010345, Entry.mk 0x1F82 0x1F020345,
  Entry.mk 0x1F83 0x1F030345, Entry.mk 0x1F84 0x1F040345, Entry.mk 0x1F85 0x1F050345, Entry.mk 0x1F86 0x1F060345,
  Entry.mk 0x1F87 0x1F070345, Entry.mk 0x1F0A 0x1F080300, Entry.mk 0x1F0C 0x1F080301, Entry.mk 0x1F0E 0x1F080342,
  Entry.mk 0x1F88 0x1F080345, Entry.mk 0x1F0B 0x1F090300, Entry.mk 0x1F0D 0x1F090301, Entry.mk 0x1F0F 0x1F090342,
  Entry.mk 0x1F89 0x1F090345, Entry.mk 0x1F8A 0x1F0A0345, Entry.mk 0x1F8B 0x1F0B0345, Entry.mk 0x1F8C 0x1F0C0345,
  Entry.mk 0x1F8D 0x1F0D0345, Entry.mk 0x1F8E 0x1F0E0345, Entry.mk 0x1F8F 0x1F0F0345, Entry.mk 0x1F12 0x1F100300,
  Entry.mk 0x1F14 0x1F100301, Entry.mk 0x1F13 0x1F110300, Entry.mk 0x1F15 0x1F110301, Entry.mk 0x1F1A 0x1F180300,
  Entry.mk 0x1F1C 0x1F180301, Entry.mk 0x1F1B 0x1F190300, Entry.mk 0x1F1D 0x1F190301, Entry.mk 0x1F22 0x1F200300,
  Entry.mk 0x1F24 0x1F200301, Entry.mk 0x1F26 0x1F200342, Entry.mk 0x1F90 0x1F200345, Entry.mk 0x1F23 0x1F210300,
  Entry.mk 0x1F25 0x1F210301, Entry.mk 0x1F27 0x1F210342, Entry.mk 0x1F91 0x1F210345, Entry.mk 0x1F92 0x1F220345,
  Entry.mk 0x1F93 0x1F230345, Entry.mk 0x1F94 0x1F240345, Entry.mk 0x1F95 0x1F250345, Entry.mk 0x1F96 0x1F260345,
  Entry.mk 0x1F97 0x1F270345, Entry.mk 0x1F2A 0x1F280300, Entry.mk 0x1F2C 0x1F280301, Entry.mk 0x1F2E 0x1F280342,
  Entry.mk 0x1F98 0x1F280345, Entry.mk 0x1F2B 0x1F290300, Entry.mk 0x1F2D 0x1F290301, Entry.mk 0x1F2F 0x1F290342,
  Entry.mk 0x1F99 0x1F290345, Entry.mk 0x1F9A 0x1F2A0345, Entry.mk 0x1F9B 0x1F2B0345, Entry.mk 0x1F9C 0x1F2C0345,
  Entry.mk 0x1F9D 0x1F2D0345, Entry.mk 0x1F9E 0x1F2E0345, Entry.mk 0x1F9F 0x1F2F0345, Entry.mk 0x1F32 0x1F300300,
  Entry.mk 0x1F34 0x1F300301, Entry.mk 0x1F36 0x1F300342, Entry.mk 0x1F33 0x1F310300, Entry.mk 0x1F35 0x1F310301,
  Entry.mk 0x1F37 0x1F310342, Entry.mk 0x1F3A 0x1F380300, Entry.mk 0x1F3C 0x1F380301, Entry.mk 0x1F3E 0x1F380342,
  Entry.mk 0x1F3B 0x1F390300, Entry.mk 0x1F3D 0x1F390301, Entry.mk 0x1F3F 0x1F390342, Entry.mk 0x1F42 0x1F400300,
  Entry.mk 0x1F44 0x1F400301, Entry.mk 0x1F43 0x1F410300, Entry.mk 0x1F45 0x1F410301, Entry.mk 0x1F4A 0x1F480300,
  Entry.mk 0x1F4C 0x1F480301, Entry.mk 0x1F4B 0x1F490300, Entry.mk 0x1F4D 0x1F490301, Entry.mk 0x1F52 0x1F500300,
  Entry.mk 0x1F54 0x1F500301, Entry.mk 0x1F56 0x1F500342, Entry.mk 0x1F53 0x1F510300, Entry.mk 0x1F55 0x1F510301,
  Entry.mk 0x1F57 0x1F510342, Entry.mk 0x1F5B 0x1F590300, Entry.mk 0x1F5D 0x1F590301, Entry.mk 0x1F5F 0x1F590342,
  Entry.mk 0x1F62 0x1F600300, Entry.mk 0x1F64 0x1F600301, Entry.mk 0x1F66 0x1F600342, Entry.mk 0x1FA0 0x1F600345,
  Entry.mk 0x1F63 0x1F610300, Entry.mk 0x1F65 0x1F610301, Entry.mk 0x1F67 0x1F610342, Entry.mk 0x1FA1 0x1F610345,
  Entry.mk 0x1FA2 0x1F620345, Entry.mk 0x1FA3 0x1F630345, Entry.mk 0x1FA4 0x1F640345, Entry.mk 0x1FA5 0x1F650345,
  Entry.mk 0x1FA6 0x1F660345, Entry.mk 0x1FA7 0x1F670345, Entry.mk 0x1F6A 0x1F680300, Entry.mk 0x1F6C 0x1F680301,
  Entry.mk 0x1F6E 0x1F680342, Entry.mk 0x1FA8 0x1F680345, Entry.mk 0x1F6B 0x1F690300, Entry.mk 0x1F6D 0x1F690301,
  Entry.mk 0x1F6F 0x1F690342, Entry.mk 0x1FA9 0x1F690345, Entry.mk 0x1FAA 0x1F6A0345, Entry.mk 0x1FAB 0x1F6B0345,
  Entry.mk 0x1FAC 0x1F6C0345, Entry.mk 0x1FAD 0x1F6D0345, Entry.mk 0x1FAE 0x1F6E0345, Entry.mk 0x1FAF 0x1F6F0345,
  Entry.mk 0x1FB2 0x1F700345, Entry.mk 0x1FC2 0x1F740345, Entry.mk 0x1FF2 0x1F7C0345, Entry.mk 0x1FB7 0x1FB60345,
  Entry.mk 0x1FCD 0x1FBF0300, Entry.mk 0x1FCE 0x1FBF0301, Entry.mk 0x1FCF 0x1FBF0342, Entry.mk 0x1FC7 0x1FC60345,
  Entry.mk 0x1FF7 0x1FF60345, Entry.mk 0x1FDD 0x1FFE0300, Entry.mk 0x1FDE 0x1FFE0301, Entry.mk 0x1FDF 0x1FFE0342,
  Entry.mk 0x219A 0x21900338, Entry.mk 0x219B 0x21920338, Entry.mk 0x21AE 0x21940338, Entry.mk 0x21CD 0x21D00338,
  Entry.mk 0x21CF 0x21D20338, Entry.mk 0x21CE 0x21D40338, Entry.mk 0x2204 0x22030338, Entry.mk 0x2209 0x22080338,
  Entry.mk 0x220C 0x220B0338, Entry.mk 0x2224 0x22230338, Entry.mk 0x2226 0x22250338, Entry.mk 0x2241 0x223C0338,
  Entry.mk 0x2244 0x22430338, Entry.mk 0x2247 0x22450338, Entry.mk 0x2249 0x22480338, Entry.mk 0x226D 0x224D0338,
  Entry.mk 0x2262 0x22610338, Entry.mk 0x2270 0x22640338, Entry.mk 0x2271 0x22650338, Entry.mk 0x2274 0x22720338,
  Entry.mk 0x2275 0x22730338, Entry.mk 0x2278 0x22760338, Entry.mk 0x2279 0x22770338, Entry.mk 0x2280 0x227A0338,
  Entry.mk 0x2281 0x227B0338, Entry.mk 0x22E0 0x227C0338, Entry.mk 0x22E1 0x227D0338, Entry.mk 0x2284 0x22820338,
  Entry.mk 0x2285 0x22830338, Entry.mk 0x2288 0x22860338, Entry.mk 0x2289 0x22870338, Entry.mk 0x22E2 0x22910338,
  Entry.mk 0x22E3 0x22920338, Entry.mk 0x22AC 0x22A20338, Entry.mk 0x22AD 0x22A80338, Entry.mk 0x22AE 0x22A90338,
  Entry.mk 0x22AF 0x22AB0338, Entry.mk 0x22EA 0x22B20338, Entry.mk 0x22EB 0x22B30338, Entry.mk 0x22EC 0x22B40338,
  Entry.mk 0x22ED 0x22B50338, Entry.mk 0x2ADC 0x2ADD0338, Entry.mk 0x3094 0x30463099, Entry.mk 0x304C 0x304B3099,
  Entry.mk 0x304E 0x304D3099, Entry.mk 0x3050 0x304F3099, Entry.mk 0x3052 0x30513099, Entry.mk 0x3054 0x30533099,
  Entry.mk 0x3056 0x30553099, Entry.mk 0x3058 0x30573099, Entry.mk 0x305A 0x30593099, Entry.mk 0x305C 0x305B3099,
  Entry.mk 0x305E 0x305D3099, Entry.mk 0x3060 0x305F3099, Entry.mk 0x3062 0x30613099, Entry.mk 0x3065 0x30643099,
  Entry.mk 0x3067 0x30663099, Entry.mk 0x3069 0x30683099, Entry.mk 0x3070 0x306F3099, Entry.mk 0x3071 0x306F309A,
  Entry.mk 0x3073 0x30723099, Entry.mk 0x3074 0x3072309A, Entry.mk 0x3076 0x30753099, Entry.mk 0x3077 0x3075309A,
  Entry.mk 0x3079 0x30783099, Entry.mk 0x307A 0x3078309A, Entry.mk 0x307C 0x307B3099, Entry.mk 0x307D 0x307B309A,
  Entry.mk 0x309E 0x309D3099, Entry.mk 0x30F4 0x30A63099, Entry.mk 0x30AC 0x30AB3099, Entry.mk 0x30AE 0x30AD3099,
  Entry.mk 0x30B0 0x30AF3099, Entry.mk 0x30B2 0x30B13099, Entry.mk 0x30B4 0x30B33099, Entry.mk 0x30B6 0x30B53099,
  Entry.mk 0x30B8 0x30B73099, Entry.mk 0x30BA 0x30B93099, Entry.mk 0x30BC 0x30BB3099, Entry.mk 0x30BE 0x30BD3099,
  Entry.mk 0x30C0 0x30BF3099, Entry.mk 0x30C2 0x30C13099, Entry.mk 0x30C5 0x30C43099, Entry.mk 0x30C7 0x30C63099,
  Entry.mk 0x30C9 0x30C83099, Entry.mk 0x30D0 0x30CF3099, Entry.mk 0x30D1 0x30CF309A, Entry.mk 0x30D3 0x30D23099,
  Entry.mk 0x30D4 0x30D2309A, Entry.mk 0x30D6 0x30D53099, Entry.mk 0x30D7 0x30D5309A, Entry.mk 0x30D9 0x30D83099,
  Entry.mk 0x30DA 0x30D8309A, Entry.mk 0x30DC 0x30DB3099, Entry.mk 0x30DD 0x30DB309A, Entry.mk 0x30F7 0x30EF3099,
  Entry.mk 0x30F8 0x30F03099, Entry.mk 0x30F9 0x30F13099, Entry.mk 0x30FA 0x30F23099, Entry.mk 0x30FE 0x30FD3099,
  Entry.mk 0xFB2C 0xFB4905C1, Entry.mk 0xFB2D 0xFB4905C2
]

/-- The static array `delta[]` of the uniform binary search. -/
def delta : List Int := [499, 249, 125, 62, 31, 16, 8, 4, 2, 1, 0]

/-- The read `table[i]` for an `int` index: a fault outside the array. -/
def tableAt (i : Int) : Except Fault Entry :=
  if i < 0 then .error .readPastEnd
  else match table[i.toNat]? with
    | some e => .ok e
    | none => .error .readPastEnd

/-- The read `delta[j]`: a fault outside the array. -/
def deltaAt (j : Nat) : Except Fault Int :=
  match delta[j]? with
  | some d => .ok d
  | none => .error .readPastEnd

/-- The loop of `UCS2precompose`:
`while (delta[j++]) { if (needle < table[i].pattern) i -= delta[j]; else if
(needle > table[i].pattern) i += delta[j]; else return table[i].precomposed; }
return -1;` -/
def UCS2precompose.loop (needle : Nat) : Nat → Int → Nat → Except Fault Int
  | 0, _, _ => .error .outOfFuel
  | fuel + 1, i, j =>
    match deltaAt j with
    | .error e => .error e
    | .ok d =>
      if d ≠ 0 then
        match tableAt i with
        | .error e => .error e
        | .ok t =>
          if needle < t.pattern then
            match deltaAt (j + 1) with
            | .error e => .error e
            | .ok dj => UCS2precompose.loop needle fuel (i - dj) (j + 1)
          else if needle > t.pattern then
            match deltaAt (j + 1) with
            | .error e => .error e
            | .ok dj => UCS2precompose.loop needle fuel (i + dj) (j + 1)
          else .ok t.precomposed
      else .ok (-1)

/-- The function `int UCS2precompose(char16 first, char16 second)`: the canonical
composition of the two units, or -1.  The needle is an `unsigned int`
(32 bits); every round moves `j` one place forward in `delta[]`. -/
def UCS2precompose (first second : Nat) : Except Fault Int :=
  match deltaAt 0 with
  | .error e => .error e
  | .ok i => UCS2precompose.loop (((first <<< 16) ||| second) % 4294967296) (delta.length + 1) i 0

/-- What a run of the search returned and which cells of `table[]` and
`delta[]` it read: one index of `table[]` for every round that compares the
needle with `table[i]`, and the indices of `delta[]` in the order of the reads. -/
structure SearchRun where
  result : Int
  tableReads : List Int
  deltaReads : List Nat
  deriving DecidableEq, Repr

/-- The loop of `UCS2precompose` once more, recording the reads of `table[i]`
and `delta[j]` next to the value returned. -/
def UCS2precompose.traceLoop (needle : Nat) : Nat → Int → Nat → Except Fault SearchRun
  | 0, _, _ => .error .outOfFuel
  | fuel + 1, i, j =>
    match deltaAt j with
    | .error e => .error e
    | .ok d =>
      if d ≠ 0 then
        match tableAt i with
        | .error e => .error e
        | .ok t =>
          if needle < t.pattern then
            match deltaAt (j + 1) with
            | .error e => .error e
            | .ok dj =>
              match UCS2precompose.traceLoop needle fuel (i - dj) (j + 1) with
              | .error e => .error e
              | .ok r => .ok ⟨r.result, i :: r.tableReads, j :: (j + 1) :: r.deltaReads⟩
          else if needle > t.pattern then
            match deltaAt (j + 1) with
            | .error e => .error e
            | .ok dj =>
              match UCS2precompose.traceLoop needle fuel (i + dj) (j + 1) with
              | .error e => .error e
              | .ok r => .ok ⟨r.result, i :: r.tableReads, j :: (j + 1) :: r.deltaReads⟩
          else .ok ⟨t.precomposed, [i], [j]⟩
      else .ok ⟨-1, [], [j]⟩

/-- The function `UCS2precompose` with its reads recorded: `int i = delta[0];`
is the first read of `delta[]`. -/
def UCS2precompose.trace (first second : Nat) : Except Fault SearchRun :=
  match deltaAt 0 with
  | .error e => .error e
  | .ok i =>
    match UCS2precompose.traceLoop (((first <<< 16) ||| second) % 4294967296)
        (delta.length + 1) i 0 with
    | .error e => .error e
    | .ok r => .ok ⟨r.result, r.tableReads, 0 :: r.deltaReads⟩

/-! ## Definitions used by the statements: the words of the specification -/

/-- The UTF-8 bytes of one 16-bit value in the words of the specification:
one byte below 0x80, the 2-byte packing below 0x800, the 3-byte packing above. -/
def utf8OfUnit (v : Nat) : List Nat :=
  if v < 0x80 then [v]
  else if v < 0x800 then [0xC0 ||| (v >>> 6), 0x80 ||| (v &&& 0x3F)]
  else [0xE0 ||| (v >>> 12), 0x80 ||| ((v >>> 6) &&& 0x3F), 0x80 ||| (v &&& 0x3F)]

/-- The number of leading 1 bits of a byte: the length of the run of set bits
from bit 7 downwards. -/
def leadingOnes (c : Nat) : Nat :=
  ((List.range 8).takeWhile (fun k => c.testBit (7 - k))).length

/-- The content of a zero-terminated string: the cells before the first zero. -/
def cstr (s : List Nat) : List Nat := s.takeWhile (fun x => x ≠ 0)

/-- The pointer at which the loops of `mbStrLen` and `UTF8toUCS2` look for
character number `k` of `str` (counting from 0): the start `str` itself, then
`p += clen` for every character of length `clen > 0` found on the way. -/
def charStart (str : List Nat) : Nat → Option (List Nat)
  | 0 => some str
  | k + 1 =>
    match charStart str k with
    | none => none
    | some p =>
      match mbCharLen p with
      | .error _ => none
      | .ok clen => if clen > 0 then some (p.drop clen) else none

/-- The unit the specification gives for a 2-byte lead `b0` followed by `b1`. -/
def unitOfTwo (b0 b1 : Nat) : Nat :=
  if 0x7F < ((b0 &&& 0x1F) <<< 6) + (b1 &&& 0x3F) ∧ (0x80 ≤ b1 ∧ b1 ≤ 0xBF) then
    ((b0 &&& 0x1F) <<< 6) + (b1 &&& 0x3F)
  else 0x2A

/-- The unit the specification gives for a 3-byte lead `b0` followed by `b1`, `b2`. -/
def unitOfThree (b0 b1 b2 : Nat) : Nat :=
  if 0x7FF < ((b0 &&& 0x0F) <<< 12) + ((b1 &&& 0x3F) <<< 6) + (b2 &&& 0x3F)
      ∧ (0x80 ≤ b1 ∧ b1 ≤ 0xBF) ∧ (0x80 ≤ b2 ∧ b2 ≤ 0xBF) then
    ((b0 &&& 0x0F) <<< 12) + ((b1 &&& 0x3F) <<< 6) + (b2 &&& 0x3F)
  else 0x2A

/-- Strictly ascending order of a list of numbers, checked pair by pair. -/
def ascending : List Nat → Bool
  | a :: b :: t => decide (a < b) && ascending (b :: t)
  | _ => true

/-- The sum of the entries of `delta[]` behind index `j`: how far the search
can still move from its current index. -/
def reach (j : Nat) : Int := (delta.drop (j + 1)).sum

/-- A linear scan of the 997 real entries `table[1]`..`table[997]` for a
pattern: the precomposed value of the first entry that has it, or -1. -/
def linearScan (needle : Nat) : Int :=
  match (table.drop 1).find? (fun e => e.pattern = needle) with
  | some e => e.precomposed
  | none => -1

/-- The pattern of `table[k]` (0 outside the table). -/
def patternAt (k : Nat) : Nat :=
  match table[k]? with
  | some e => e.pattern
  | none => 0

/-- A conventional lower-bound binary search over the indices `lo ≤ k < hi`:
the first index whose pattern is not below the needle (`hi` when there is
none), by repeated halving of the interval. -/
def lowerBound (needle : Nat) : Nat → Nat → Nat → Nat
  | 0, lo, _ => lo
  | fuel + 1, lo, hi =>
    if lo < hi then
      if patternAt ((lo + hi) / 2) < needle then lowerBound needle fuel ((lo + hi) / 2 + 1) hi
      else lowerBound needle fuel lo ((lo + hi) / 2)
    else lo

/-- A conventional binary search of the 997 real entries for a pattern: the
precomposed value of the entry at the lower bound when it has the pattern,
or -1. -/
def binarySearch (needle : Nat) : Int :=
  match table[lowerBound needle 998 1 998]? with
  | some e => if e.pattern = needle then e.precomposed else -1
  | none => -1

/-- The steps `d, floor(d/2), floor(floor(d/2)/2), ...` down to the first 0. -/
def halving : Nat → Nat → List Int
  | 0, _ => []
  | fuel + 1, d => (d : Int) :: (if d = 0 then [] else halving fuel (d / 2))

/-- The delta sequence in the words of the specification: it starts at
`floor((N+1)/2)`, every further entry is half the entry before it, rounded
down, and it ends at 0. -/
def halvingDeltas (N : Nat) : List Int := halving (N + 2) ((N + 1) / 2)

/-- The delta sequence of the uniform binary search for a table of `N` entries
after Knuth, TAOCP vol. 3, 6.2.1, algorithm C (the algorithm the source
names): `floor((N + 2^k) / 2^(k+1))` for `k = 0, ..., 10`. -/
def knuthDeltas (N : Nat) : List Int :=
  (List.range 11).map (fun k => (((N + 2 ^ k) / 2 ^ (k + 1) : Nat) : Int))

/-- One well-formed character of at most three bytes: a byte 0x01..0x7F, a
2-byte sequence 110xxxxx 10xxxxxx of value at least 0x80, or a 3-byte sequence
1110xxxx 10xxxxxx 10xxxxxx of value at least 0x800. -/
def wellFormedChar : List Nat → Bool
  | [b] => decide (0x01 ≤ b ∧ b ≤ 0x7F)
  | [b0, b1] =>
    decide (0xC0 ≤ b0 ∧ b0 ≤ 0xDF ∧ 0x80 ≤ b1 ∧ b1 ≤ 0xBF
      ∧ 0x80 ≤ (b0 % 32) * 64 + b1 % 64)
  | [b0, b1, b2] =>
    decide (0xE0 ≤ b0 ∧ b0 ≤ 0xEF ∧ 0x80 ≤ b1 ∧ b1 ≤ 0xBF ∧ 0x80 ≤ b2 ∧ b2 ≤ 0xBF
      ∧ 0x800 ≤ (b0 % 16) * 4096 + (b1 % 64) * 64 + b2 % 64)
  | _ => false

/-! # Theorems -/

/-! ## Bit operations on bytes as arithmetic -/

theorem and_3f (x : Nat) : x &&& 0x3f = x % 64 := Nat.and_pow_two_sub_one_eq_mod x 6

theorem and_1f (x : Nat) : x &&& 0x1f = x % 32 := Nat.and_pow_two_sub_one_eq_mod x 5

theorem and_0f (x : Nat) : x &&& 0xf = x % 16 := Nat.and_pow_two_sub_one_eq_mod x 4

theorem and_07 (x : Nat) : x &&& 0x7 = x % 8 := Nat.and_pow_two_sub_one_eq_mod x 3

theorem shl_2 (x : Nat) : x <<< 2 = x * 4 := Nat.shiftLeft_eq x 2

theorem shl_6 (x : Nat) : x <<< 6 = x * 64 := Nat.shiftLeft_eq x 6

theorem shl_12 (x : Nat) : x <<< 12 = x * 4096 := Nat.shiftLeft_eq x 12

theorem shr_4 (x : Nat) : x >>> 4 = x / 16 := Nat.shiftRight_eq_div_pow x 4

theorem shr_6 (x : Nat) : x >>> 6 = x / 64 := Nat.shiftRight_eq_div_pow x 6

theorem shr_12 (x : Nat) : x >>> 12 = x / 4096 := Nat.shiftRight_eq_div_pow x 12

set_option maxRecDepth 100000 in
theorem and_c0_byte : ∀ x < 256, x &&& 0xc0 = x / 64 * 64 := by decide

set_option maxRecDepth 100000 in
theorem and_f0_byte : ∀ x < 256, x &&& 0xf0 = x / 16 * 16 := by decide

theorem or_80 : ∀ m < 64, 0x80 ||| m = 0x80 + m := by decide

theorem or_c0 : ∀ m < 32, 0xc0 ||| m = 0xc0 + m := by decide

theorem or_e0 : ∀ m < 16, 0xe0 ||| m = 0xe0 + m := by decide

theorem or_80_pair : ∀ a < 16, ∀ b < 4, 0x80 ||| a * 4 ||| b = 0x80 + a * 4 + b := by decide

theorem or_c0_pair : ∀ a < 8, ∀ b < 4, 0xc0 ||| a * 4 ||| b = 0xc0 + a * 4 + b := by decide

set_option maxRecDepth 100000 in
theorem scan_byte : ∀ c < 256, mbCharLen.scan c 9 0x80 0 =
    if c < 0x80 then 0 else if c < 0xC0 then 1 else if c < 0xE0 then 2
    else if c < 0xF0 then 3 else if c < 0xF8 then 4 else if c < 0xFC then 5
    else if c < 0xFE then 6 else if c < 0xFF then 7 else 8 := by decide

theorem mbCharLen_cons (c : Nat) (t : List Nat) (hc : c < 256) :
    mbCharLen (c :: t) = .ok (if c = 0 then 0 else if c < 0x80 then 1 else if c < 0xC0 then 0
      else if c < 0xE0 then 2 else if c < 0xF0 then 3 else if c < 0xF8 then 4
      else if c < 0xFC then 5 else if c < 0xFE then 6 else if c < 0xFF then 7 else 8) := by
  unfold mbCharLen rd
  simp only [List.getElem?_cons_zero]
  by_cases h0 : c = 0
  · simp [h0]
  · rw [if_pos h0, scan_byte c hc]
    simp only [h0, if_false]
    split_ifs <;> rfl

/-- The bytes the encoder writes for one non-zero unit on a little-endian host. -/
theorem encode_unit_le (u : Nat) (rest : List Nat) (h0 : 0 < u) (hu : u < 65536) :
    UCS2toUTF8.loop true (u :: rest) =
      (UCS2toUTF8.loop true rest).map (fun out => utf8OfUnit u ++ out) := by
  have hw : (if u < 0x0080 then [u % 256]
      else if u < 0x0800 then
        [(0xc0 ||| ((u / 256 % 256 &&& 0x7) <<< 2) ||| ((u % 256 &&& 0xc0) >>> 6)) % 256,
         (0x80 ||| (u % 256 &&& 0x3f)) % 256]
      else
        [(0xe0 ||| ((u / 256 % 256 &&& 0xf0) >>> 4)) % 256,
         (0x80 ||| ((u / 256 % 256 &&& 0xf) <<< 2) ||| ((u % 256 &&& 0xc0) >>> 6)) % 256,
         (0x80 ||| (u % 256 &&& 0x3f)) % 256]) = utf8OfUnit u := by
    unfold utf8OfUnit
    by_cases h1 : u < 0x80
    · simp only [h1, if_true]
      have : u % 256 = u := by omega
      rw [this]
    · by_cases h2 : u < 0x800
      · simp only [h1, h2, if_true, if_false]
        have hlead : (0xc0 ||| ((u / 256 % 256) &&& 0x7) <<< 2 ||| ((u % 256) &&& 0xc0) >>> 6) % 256
            = 0xC0 ||| (u >>> 6) := by
          rw [and_07, shl_2, and_c0_byte _ (Nat.mod_lt _ (by decide)), shr_6, shr_6,
            or_c0_pair _ (by omega) _ (by omega), or_c0 _ (by omega)]
          omega
        have hcont : (0x80 ||| ((u % 256) &&& 0x3f)) % 256 = 0x80 ||| (u &&& 0x3F) := by
          rw [and_3f, and_3f, or_80 _ (by omega), or_80 _ (by omega)]
          omega
        rw [hlead, hcont]
      · simp only [h1, h2, if_false]
        have hlead : (0xe0 ||| ((u / 256 % 256) &&& 0xf0) >>> 4) % 256 = 0xE0 ||| (u >>> 12) := by
          rw [and_f0_byte _ (Nat.mod_lt _ (by decide)), shr_4, shr_12,
            or_e0 _ (by omega), or_e0 _ (by omega)]
          omega
        have hmid : (0x80 ||| ((u / 256 % 256) &&& 0xf) <<< 2 ||| ((u % 256) &&& 0xc0) >>> 6) % 256
            = 0x80 ||| ((u >>> 6) &&& 0x3F) := by
          rw [and_0f, shl_2, and_c0_byte _ (Nat.mod_lt _ (by decide)), shr_6, shr_6, and_3f,
            or_80_pair _ (by omega) _ (by omega), or_80 _ (by omega)]
          omega
        have hcont : (0x80 ||| ((u % 256) &&& 0x3f)) % 256 = 0x80 ||| (u &&& 0x3F) := by
          rw [and_3f, and_3f, or_80 _ (by omega), or_80 _ (by omega)]
          omega
        rw [hlead, hmid, hcont]
  rw [UCS2toUTF8.loop]
  simp only [h0, if_true, storedBytes, hw]
  cases UCS2toUTF8.loop true rest <;> rfl

theorem utf8OfUnit_arith (v : Nat) (hv : v < 65536) :
    utf8OfUnit v = if v < 0x80 then [v]
      else if v < 0x800 then [0xC0 + v / 64, 0x80 + v % 64]
      else [0xE0 + v / 4096, 0x80 + v / 64 % 64, 0x80 + v % 64] := by
  unfold utf8OfUnit
  by_cases h1 : v < 0x80
  · simp only [h1, if_true]
  · by_cases h2 : v < 0x800
    · simp only [h1, h2, if_true, if_false]
      rw [shr_6, and_3f, or_c0 _ (by omega), or_80 _ (by omega)]
    · simp only [h1, h2, if_false]
      rw [shr_12, shr_6, and_3f, and_3f, or_e0 _ (by omega), or_80 _ (by omega),
        or_80 _ (by omega)]

theorem str16len_loop_append (units tail : List Nat) (hpos : ∀ v ∈ units, 0 < v) (len : Nat) :
    str16len.loop (units ++ 0 :: tail) len = .ok (len + units.length) := by
  induction units generalizing len with
  | nil => simp [str16len.loop]
  | cons u us ih =>
    have hu : u ≠ 0 := Nat.pos_iff_ne_zero.mp (hpos u (List.mem_cons_self _ _))
    rw [List.cons_append, str16len.loop, if_pos hu,
      ih (fun v hv => hpos v (List.mem_cons_of_mem _ hv)), List.length_cons]
    congr 1
    omega

theorem UCS2toUTF8_loop_append (units tail : List Nat) (hpos : ∀ v ∈ units, 0 < v)
    (h16 : ∀ v ∈ units, v < 65536) :
    UCS2toUTF8.loop true (units ++ 0 :: tail) = .ok ((units.map utf8OfUnit).flatten ++ [0]) := by
  induction units with
  | nil => simp [UCS2toUTF8.loop]
  | cons u us ih =>
    rw [List.cons_append, encode_unit_le u _ (hpos u (List.mem_cons_self _ _))
      (h16 u (List.mem_cons_self _ _)),
      ih (fun v hv => hpos v (List.mem_cons_of_mem _ hv))
        (fun v hv => h16 v (List.mem_cons_of_mem _ hv))]
    simp [Except.map]

/-- Decoding the bytes the specification gives for one non-zero unit yields that unit. -/
theorem decode_utf8OfUnit (v : Nat) (rest : List Nat) (fuel : Nat) (h0 : 0 < v) (hv : v < 65536) :
    UTF8toUCS2.loop (fuel + 1) (utf8OfUnit v ++ rest) =
      (UTF8toUCS2.loop fuel rest).map (fun out => v :: out) := by
  rw [utf8OfUnit_arith v hv]
  by_cases h1 : v < 0x80
  · simp only [h1, if_true, List.cons_append, List.nil_append]
    rw [UTF8toUCS2.loop, mbCharLen_cons v _ (by omega)]
    have hv0 : v ≠ 0 := by omega
    simp only [hv0, h1, if_true, if_false, Nat.lt_irrefl, Nat.zero_lt_one, List.drop_succ_cons,
      List.drop_zero, UTF8toUCS2.decodeChar, rd, List.getElem?_cons_zero]
    have : v % 65536 = v := by omega
    rw [this]
    cases UTF8toUCS2.loop fuel rest <;> rfl
  · by_cases h2 : v < 0x800
    · simp only [h1, h2, if_true, if_false, List.cons_append, List.nil_append]
      rw [UTF8toUCS2.loop, mbCharLen_cons _ _ (by omega)]
      have c1 : ¬ (0xC0 + v / 64 = 0) := by omega
      have c2 : ¬ (0xC0 + v / 64 < 0x80) := by omega
      have c3 : ¬ (0xC0 + v / 64 < 0xC0) := by omega
      have c4 : 0xC0 + v / 64 < 0xE0 := by omega
      simp only [c1, c2, c3, c4, if_true, if_false, List.drop_succ_cons, List.drop_zero,
        UTF8toUCS2.decodeChar, rd, List.getElem?_cons_zero, List.getElem?_cons_succ]
      have e1 : ((0x80 + v % 64 &&& 0x3f) + (0xC0 + v / 64 &&& 0x1f) <<< 6) % 65536 = v := by
        rw [and_3f, and_1f, shl_6]; omega
      have e2 : 0x80 + v % 64 &&& 0xC0 = 0x80 := by
        rw [and_c0_byte _ (by omega)]; omega
      have e3 : v > 0x7f := by omega
      simp only [e1, e2, e3, and_self, if_true]
      cases UTF8toUCS2.loop fuel rest <;> rfl
    · simp only [h1, h2, if_false, List.cons_append, List.nil_append]
      rw [UTF8toUCS2.loop, mbCharLen_cons _ _ (by omega)]
      have c1 : ¬ (0xE0 + v / 4096 = 0) := by omega
      have c2 : ¬ (0xE0 + v / 4096 < 0x80) := by omega
      have c3 : ¬ (0xE0 + v / 4096 < 0xC0) := by omega
      have c4 : ¬ (0xE0 + v / 4096 < 0xE0) := by omega
      have c5 : 0xE0 + v / 4096 < 0xF0 := by omega
      simp only [c1, c2, c3, c4, c5, if_true, if_false, List.drop_succ_cons, List.drop_zero,
        UTF8toUCS2.decodeChar, rd, List.getElem?_cons_zero, List.getElem?_cons_succ]
      have e1 : ((0x80 + v % 64 &&& 0x3f) + (0x80 + v / 64 % 64 &&& 0x3f) <<< 6
          + (0xE0 + v / 4096 &&& 0xf) <<< 12) % 65536 = v := by
        rw [and_3f, and_3f, and_0f, shl_6, shl_12]; omega
      have e2 : 0x80 + v % 64 &&& 0xC0 = 0x80 := by
        rw [and_c0_byte _ (by omega)]; omega
      have e3 : 0x80 + v / 64 % 64 &&& 0xC0 = 0x80 := by
        rw [and_c0_byte _ (by omega)]; omega
      have e4 : v > 0x7ff := by omega
      simp only [e1, e2, e3, e4, and_self, if_true]
      cases UTF8toUCS2.loop fuel rest <;> rfl

theorem utf8OfUnit_length_pos (v : Nat) : 0 < (utf8OfUnit v).length := by
  unfold utf8OfUnit
  split_ifs <;> simp

/-- The sizing pass counts the bytes the specification gives for one non-zero unit as one character. -/
theorem mbStrLen_utf8OfUnit (v : Nat) (rest : List Nat) (fuel len : Nat) (h0 : 0 < v)
    (hv : v < 65536) :
    mbStrLen.loop (fuel + 1) (utf8OfUnit v ++ rest) len = mbStrLen.loop fuel rest (len + 1) := by
  rw [utf8OfUnit_arith v hv]
  by_cases h1 : v < 0x80
  · simp only [h1, if_true, List.cons_append, List.nil_append]
    rw [mbStrLen.loop, mbCharLen_cons v _ (by omega)]
    have hv0 : v ≠ 0 := by omega
    simp only [hv0, h1, if_true, if_false, Nat.zero_lt_one, List.drop_succ_cons, List.drop_zero]
  · by_cases h2 : v < 0x800
    · simp only [h1, h2, if_true, if_false, List.cons_append, List.nil_append]
      rw [mbStrLen.loop, mbCharLen_cons _ _ (by omega)]
      have c1 : ¬ (0xC0 + v / 64 = 0) := by omega
      have c2 : ¬ (0xC0 + v / 64 < 0x80) := by omega
      have c3 : ¬ (0xC0 + v / 64 < 0xC0) := by omega
      have c4 : 0xC0 + v / 64 < 0xE0 := by omega
      simp only [c1, c2, c3, c4, if_true, if_false, List.drop_succ_cons, List.drop_zero]
      simp
    · simp only [h1, h2, if_false, List.cons_append, List.nil_append]
      rw [mbStrLen.loop, mbCharLen_cons _ _ (by omega)]
      have c1 : ¬ (0xE0 + v / 4096 = 0) := by omega
      have c2 : ¬ (0xE0 + v / 4096 < 0x80) := by omega
      have c3 : ¬ (0xE0 + v / 4096 < 0xC0) := by omega
      have c4 : ¬ (0xE0 + v / 4096 < 0xE0) := by omega
      have c5 : 0xE0 + v / 4096 < 0xF0 := by omega
      simp only [c1, c2, c3, c4, c5, if_true, if_false, List.drop_succ_cons, List.drop_zero]
      simp

theorem mbStrLen_loop_zero (rest : List Nat) (fuel len : Nat) :
    mbStrLen.loop (fuel + 1) (0 :: rest) len = .ok len := by
  rw [mbStrLen.loop, mbCharLen_cons 0 _ (by decide)]
  simp

theorem UTF8toUCS2_loop_zero (rest : List Nat) (fuel : Nat) :
    UTF8toUCS2.loop (fuel + 1) (0 :: rest) = .ok [0] := by
  rw [UTF8toUCS2.loop, mbCharLen_cons 0 _ (by decide)]
  simp

/-- C1: on a little-endian host, for every 16-bit value `v` with
`0x80 ≤ v ≤ 0xFFFF`, `UCS2toUTF8` returns a byte string for the one-unit
string `[v, 0]`, and `UTF8toUCS2` applied to that byte string returns the
unit string `[v, 0]`. -/
theorem UTF8toUCS2_UCS2toUTF8_unit (v : Nat) (hlo : 0x80 ≤ v) (hhi : v ≤ 0xFFFF) :
    ∃ bytes, UCS2toUTF8 true [v, 0] = .ok bytes ∧ UTF8toUCS2 true bytes = .ok [v, 0] := by
  have h0 : 0 < v := by omega
  have hv : v < 65536 := by omega
  have hpos : ∀ x ∈ [v], 0 < x := by simpa using h0
  have h16 : ∀ x ∈ [v], x < 65536 := by simpa using hv
  refine ⟨utf8OfUnit v ++ [0], ?_, ?_⟩
  · have hlen := str16len_loop_append [v] [] hpos 0
    have hloop := UCS2toUTF8_loop_append [v] [] hpos h16
    simp only [List.cons_append, List.nil_append] at hlen hloop
    simp [UCS2toUTF8, str16len, hlen, hloop]
  · obtain ⟨k, hk⟩ := Nat.exists_eq_add_of_lt (utf8OfUnit_length_pos v)
    have hfuel : (utf8OfUnit v ++ [0]).length + 1 = (k + 1) + 1 + 1 := by
      rw [List.length_append, List.length_singleton, hk]
      omega
    simp only [UTF8toUCS2, mbStrLen, hfuel]
    rw [mbStrLen_utf8OfUnit v [0] _ 0 h0 hv, mbStrLen_loop_zero,
      decode_utf8OfUnit v [0] _ h0 hv, UTF8toUCS2_loop_zero]
    simp [storedBytes, Except.map]

/-- Witness for C1: the euro sign U+20AC. -/
theorem UTF8toUCS2_UCS2toUTF8_unit_witness :
    (0x80 ≤ 0x20AC ∧ 0x20AC ≤ 0xFFFF) ∧
    ∃ bytes, UCS2toUTF8 true [0x20AC, 0] = .ok bytes ∧ UTF8toUCS2 true bytes = .ok [0x20AC, 0] :=
  ⟨by decide, UTF8toUCS2_UCS2toUTF8_unit 0x20AC (by decide) (by decide)⟩

/-- C2: for every ASCII byte `b` in 0..0x7F, on a little-endian host,
`UTF8toUCS2` on the byte string `[b, 0]` yields the zero-terminated unit string
with the content of `[b, 0]` and `UCS2toUTF8` on the unit string `[b, 0]` yields
the zero-terminated byte string with the content of `[b, 0]` (the empty string
for `b = 0`, the one-cell string `b` otherwise). -/
theorem ascii_identity (b : Nat) (hb : b ≤ 0x7F) :
    UTF8toUCS2 true [b, 0] = .ok (cstr [b, 0] ++ [0]) ∧
    UCS2toUTF8 true [b, 0] = .ok (cstr [b, 0] ++ [0]) ∧
    (b ≠ 0 → cstr [b, 0] ++ [0] = [b, 0]) := by
  have key : ∀ b < 128, UTF8toUCS2 true [b, 0] = .ok (cstr [b, 0] ++ [0]) ∧
      UCS2toUTF8 true [b, 0] = .ok (cstr [b, 0] ++ [0]) ∧
      (b ≠ 0 → cstr [b, 0] ++ [0] = [b, 0]) := by decide
  exact key b (by omega)

/-- Witness for C2: the letter `A`. -/
theorem ascii_identity_witness :
    UTF8toUCS2 true [0x41, 0] = .ok [0x41, 0] ∧ UCS2toUTF8 true [0x41, 0] = .ok [0x41, 0] :=
  ⟨(ascii_identity 0x41 (by decide)).1, (ascii_identity 0x41 (by decide)).2.1⟩

/-- C3: for every zero-terminated 16-bit string (units as the little-endian
host reads them), `UCS2toUTF8` returns, for each unit `v` before the terminator
and in input order, the byte `v` when `v < 0x80`, the two bytes `0xC0|(v>>6)`,
`0x80|(v&0x3F)` when `0x80 ≤ v < 0x800`, and the three bytes `0xE0|(v>>12)`,
`0x80|((v>>6)&0x3F)`, `0x80|(v&0x3F)` when `v ≥ 0x800`, followed by one zero
byte and nothing else. -/
theorem UCS2toUTF8_bytes (units tail : List Nat) (hpos : ∀ v ∈ units, 0 < v)
    (h16 : ∀ v ∈ units, v < 65536) :
    UCS2toUTF8 true (units ++ 0 :: tail) = .ok ((units.map utf8OfUnit).flatten ++ [0]) := by
  simp only [UCS2toUTF8, str16len, str16len_loop_append units tail hpos 0,
    UCS2toUTF8_loop_append units tail hpos h16]

/-- Witness for C3: `A`, U+00C0 and U+20AC. -/
theorem UCS2toUTF8_bytes_witness :
    UCS2toUTF8 true [0x41, 0xC0, 0x20AC, 0] = .ok [0x41, 0xC3, 0x80, 0xE2, 0x82, 0xAC, 0] :=
  UCS2toUTF8_bytes [0x41, 0xC0, 0x20AC] [] (by decide) (by decide)

theorem isCont_iff (b : Nat) (hb : b < 256) : b &&& 0xC0 = 0x80 ↔ (0x80 ≤ b ∧ b ≤ 0xBF) := by
  rw [and_c0_byte b hb]
  omega

theorem loop_two (b0 b1 : Nat) (t : List Nat) (fuel : Nat) (hb1 : b1 < 256)
    (hlo : 0xC0 ≤ b0) (hhi : b0 ≤ 0xDF) :
    UTF8toUCS2.loop (fuel + 1) (b0 :: b1 :: t) =
      (UTF8toUCS2.loop fuel t).map (fun out => unitOfTwo b0 b1 :: out) := by
  rw [UTF8toUCS2.loop, mbCharLen_cons _ _ (by omega)]
  have c1 : ¬ (b0 = 0) := by omega
  have c2 : ¬ (b0 < 0x80) := by omega
  have c3 : ¬ (b0 < 0xC0) := by omega
  have c4 : b0 < 0xE0 := by omega
  simp only [c1, c2, c3, c4, if_true, if_false, List.drop_succ_cons, List.drop_zero,
    UTF8toUCS2.decodeChar, rd, List.getElem?_cons_zero, List.getElem?_cons_succ]
  have e1 : ((b1 &&& 0x3f) + (b0 &&& 0x1f) <<< 6) % 65536
      = ((b0 &&& 0x1F) <<< 6) + (b1 &&& 0x3F) := by
    rw [and_3f, and_1f, shl_6]; omega
  simp only [e1, isCont_iff b1 hb1, gt_iff_lt, Nat.zero_lt_succ, if_true]
  cases UTF8toUCS2.loop fuel t <;> simp [Except.map, unitOfTwo]

theorem loop_three (b0 b1 b2 : Nat) (t : List Nat) (fuel : Nat) (hb1 : b1 < 256) (hb2 : b2 < 256)
    (hlo : 0xE0 ≤ b0) (hhi : b0 ≤ 0xEF) :
    UTF8toUCS2.loop (fuel + 1) (b0 :: b1 :: b2 :: t) =
      (UTF8toUCS2.loop fuel t).map (fun out => unitOfThree b0 b1 b2 :: out) := by
  rw [UTF8toUCS2.loop, mbCharLen_cons _ _ (by omega)]
  have c1 : ¬ (b0 = 0) := by omega
  have c2 : ¬ (b0 < 0x80) := by omega
  have c3 : ¬ (b0 < 0xC0) := by omega
  have c4 : ¬ (b0 < 0xE0) := by omega
  have c5 : b0 < 0xF0 := by omega
  simp only [c1, c2, c3, c4, c5, if_true, if_false, List.drop_succ_cons, List.drop_zero,
    UTF8toUCS2.decodeChar, rd, List.getElem?_cons_zero, List.getElem?_cons_succ]
  have e1 : ((b2 &&& 0x3f) + (b1 &&& 0x3f) <<< 6 + (b0 &&& 0xf) <<< 12) % 65536
      = ((b0 &&& 0x0F) <<< 12) + ((b1 &&& 0x3F) <<< 6) + (b2 &&& 0x3F) := by
    rw [and_3f, and_3f, and_0f, shl_6, shl_12]; omega
  simp only [e1, isCont_iff b1 hb1, isCont_iff b2 hb2, gt_iff_lt, Nat.zero_lt_succ, if_true]
  cases UTF8toUCS2.loop fuel t <;> simp [Except.map, unitOfThree]

/-- The conversion loop, restarted at a character start, returns the rest of the output. -/
theorem loop_at_charStart (str : List Nat) (k : Nat) : ∀ (p out : List Nat) (n : Nat),
    UTF8toUCS2.loop n str = .ok out → charStart str k = some p →
    ∃ m, UTF8toUCS2.loop m p = .ok (out.drop k) := by
  induction k with
  | zero =>
    intro p out n hout hp
    simp only [charStart, Option.some.injEq] at hp
    exact ⟨n, by rw [← hp, List.drop_zero]; exact hout⟩
  | succ k ih =>
    intro p out n hout hp
    rw [charStart] at hp
    cases hq : charStart str k with
    | none => simp [hq] at hp
    | some q =>
      obtain ⟨m, hm⟩ := ih q out n hout hq
      simp only [hq] at hp
      cases hc : mbCharLen q with
      | error e => simp [hc] at hp
      | ok clen =>
        simp only [hc] at hp
        by_cases hpos : clen > 0
        · simp only [hpos, if_true, Option.some.injEq] at hp
          cases m with
          | zero => simp [UTF8toUCS2.loop] at hm
          | succ m =>
            rw [UTF8toUCS2.loop] at hm
            simp only [hc, hpos, if_true] at hm
            cases hd : UTF8toUCS2.decodeChar clen q with
            | error e => simp [hd] at hm
            | ok c16 =>
              simp only [hd] at hm
              cases hr : UTF8toUCS2.loop m (List.drop clen q) with
              | error e => simp [hr] at hm
              | ok rest =>
                simp only [hr, Except.ok.injEq] at hm
                refine ⟨m, ?_⟩
                rw [← hp, hr]
                have : List.drop (k + 1) out = List.drop 1 (List.drop k out) := by
                  rw [List.drop_drop]
                rw [this, ← hm]
                rfl
        · simp [hpos] at hp

theorem UTF8toUCS2_eq_loop (le : Bool) (str out : List Nat) (h : UTF8toUCS2 le str = .ok out) :
    UTF8toUCS2.loop (str.length + 1) str = .ok out := by
  unfold UTF8toUCS2 at h
  cases hm : mbStrLen str with
  | error e => simp [hm] at h
  | ok c =>
    simp only [hm] at h
    cases hl : UTF8toUCS2.loop (str.length + 1) str with
    | error e => simp [hl] at h
    | ok s =>
      simp only [hl] at h
      have hz : (storedBytes le 0).1 = 0 := by cases le <;> rfl
      simp only [hz, ne_eq, not_true_eq_false, if_false] at h
      exact h

/-- C4: at every character start of a byte string (the pointer `p` of the
conversion loop for character number `k`), when the start byte `b0` is a 2-byte
lead (0xC0..0xDF) followed by `b1`, the loop stores
`((b0 & 0x1F) << 6) + (b1 & 0x3F)` if that value exceeds 0x7F and `b1` is of the
form 10xxxxxx, and 0x2A otherwise, and goes on two bytes later; when `b0` is a
3-byte lead (0xE0..0xEF) followed by `b1`, `b2`, it stores
`((b0 & 0x0F) << 12) + ((b1 & 0x3F) << 6) + (b2 & 0x3F)` if that value exceeds
0x7FF and `b1`, `b2` are of the form 10xxxxxx, and 0x2A otherwise, and goes on
three bytes later.  The unit stored is unit number `k` of the result of
`UTF8toUCS2`. -/
theorem UTF8toUCS2_multibyte_units (le : Bool) (str : List Nat) (k : Nat) :
    (∀ b0 b1 t, b1 < 256 → 0xC0 ≤ b0 → b0 ≤ 0xDF → charStart str k = some (b0 :: b1 :: t) →
      (∀ fuel, UTF8toUCS2.loop (fuel + 1) (b0 :: b1 :: t) =
        (UTF8toUCS2.loop fuel t).map (fun out => unitOfTwo b0 b1 :: out)) ∧
      (∀ out, UTF8toUCS2 le str = .ok out → out[k]? = some (unitOfTwo b0 b1))) ∧
    (∀ b0 b1 b2 t, b1 < 256 → b2 < 256 → 0xE0 ≤ b0 → b0 ≤ 0xEF →
      charStart str k = some (b0 :: b1 :: b2 :: t) →
      (∀ fuel, UTF8toUCS2.loop (fuel + 1) (b0 :: b1 :: b2 :: t) =
        (UTF8toUCS2.loop fuel t).map (fun out => unitOfThree b0 b1 b2 :: out)) ∧
      (∀ out, UTF8toUCS2 le str = .ok out → out[k]? = some (unitOfThree b0 b1 b2))) := by
  constructor
  · intro b0 b1 t hb1 hlo hhi hstart
    refine ⟨fun fuel => loop_two b0 b1 t fuel hb1 hlo hhi, ?_⟩
    intro out hout
    obtain ⟨m, hm⟩ := loop_at_charStart str k _ out _ (UTF8toUCS2_eq_loop le str out hout) hstart
    cases m with
    | zero => simp [UTF8toUCS2.loop] at hm
    | succ m =>
      rw [loop_two b0 b1 t m hb1 hlo hhi] at hm
      cases hr : UTF8toUCS2.loop m t with
      | error e => simp [hr, Except.map] at hm
      | ok rest =>
        simp only [hr, Except.map, Except.ok.injEq] at hm
        have h0 : (List.drop k out)[0]? = some (unitOfTwo b0 b1) := by rw [← hm]; simp
        simpa using h0
  · intro b0 b1 b2 t hb1 hb2 hlo hhi hstart
    refine ⟨fun fuel => loop_three b0 b1 b2 t fuel hb1 hb2 hlo hhi, ?_⟩
    intro out hout
    obtain ⟨m, hm⟩ := loop_at_charStart str k _ out _ (UTF8toUCS2_eq_loop le str out hout) hstart
    cases m with
    | zero => simp [UTF8toUCS2.loop] at hm
    | succ m =>
      rw [loop_three b0 b1 b2 t m hb1 hb2 hlo hhi] at hm
      cases hr : UTF8toUCS2.loop m t with
      | error e => simp [hr, Except.map] at hm
      | ok rest =>
        simp only [hr, Except.map, Except.ok.injEq] at hm
        have h0 : (List.drop k out)[0]? = some (unitOfThree b0 b1 b2) := by rw [← hm]; simp
        simpa using h0

/-- Witness for C4: in `A`, U+00C0, U+20AC, an overlong `/` (0xC0 0xAF), the
characters 1 to 3 come out as 0xC0, 0x20AC and `*`. -/
theorem UTF8toUCS2_multibyte_units_witness :
    UTF8toUCS2 true [0x41, 0xC3, 0x80, 0xE2, 0x82, 0xAC, 0xC0, 0xAF, 0]
      = .ok [0x41, 0xC0, 0x20AC, 0x2A, 0] ∧
    [0x41, 0xC0, 0x20AC, 0x2A, 0][1]? = some (unitOfTwo 0xC3 0x80) ∧
    [0x41, 0xC0, 0x20AC, 0x2A, 0][2]? = some (unitOfThree 0xE2 0x82 0xAC) ∧
    [0x41, 0xC0, 0x20AC, 0x2A, 0][3]? = some (unitOfTwo 0xC0 0xAF) :=
  have hout : UTF8toUCS2 true [0x41, 0xC3, 0x80, 0xE2, 0x82, 0xAC, 0xC0, 0xAF, 0]
      = .ok [0x41, 0xC0, 0x20AC, 0x2A, 0] := by decide
  ⟨hout,
   ((UTF8toUCS2_multibyte_units true [0x41, 0xC3, 0x80, 0xE2, 0x82, 0xAC, 0xC0, 0xAF, 0] 1).1
      0xC3 0x80 [0xE2, 0x82, 0xAC, 0xC0, 0xAF, 0]
      (by decide) (by decide) (by decide) (by decide)).2 _ hout,
   ((UTF8toUCS2_multibyte_units true [0x41, 0xC3, 0x80, 0xE2, 0x82, 0xAC, 0xC0, 0xAF, 0] 2).2
      0xE2 0x82 0xAC [0xC0, 0xAF, 0]
      (by decide) (by decide) (by decide) (by decide) (by decide)).2 _ hout,
   ((UTF8toUCS2_multibyte_units true [0x41, 0xC3, 0x80, 0xE2, 0x82, 0xAC, 0xC0, 0xAF, 0] 3).1
      0xC0 0xAF [0]
      (by decide) (by decide) (by decide) (by decide)).2 _ hout⟩

theorem ascending_pairwise : ∀ (l : List Nat), ascending l = true → l.Pairwise (fun a b => a < b)
  | [], _ => List.Pairwise.nil
  | [_], _ => List.pairwise_singleton _ _
  | a :: b :: t, h => by
    simp only [ascending, Bool.and_eq_true, decide_eq_true_eq] at h
    have ih := ascending_pairwise (b :: t) h.2
    refine List.Pairwise.cons ?_ ih
    intro x hx
    rcases List.mem_cons.mp hx with rfl | hx
    · exact h.1
    · exact Nat.lt_trans h.1 (List.rel_of_pairwise_cons ih hx)

set_option maxRecDepth 100000 in
theorem table_length : table.length = 998 := by decide!

set_option maxRecDepth 100000 in
theorem table_ascending : ascending (table.map Entry.pattern) = true := by decide!

set_option maxRecDepth 100000 in
theorem table_patterns_32 : ∀ e ∈ table, e.pattern < 4294967296 := by decide!

/-- The table is sorted strictly ascending by pattern, in index form. -/
theorem table_sorted (a b : Nat) (ea eb : Entry) (hab : a < b) (ha : table[a]? = some ea)
    (hb : table[b]? = some eb) : ea.pattern < eb.pattern := by
  have hp := ascending_pairwise _ table_ascending
  rw [List.pairwise_map, List.pairwise_iff_getElem] at hp
  obtain ⟨ha1, ha2⟩ := List.getElem?_eq_some_iff.mp ha
  obtain ⟨hb1, hb2⟩ := List.getElem?_eq_some_iff.mp hb
  have := hp a b ha1 hb1 hab
  rwa [ha2, hb2] at this

theorem table_sorted_le (a b : Nat) (ea eb : Entry) (hab : a ≤ b) (ha : table[a]? = some ea)
    (hb : table[b]? = some eb) : ea.pattern ≤ eb.pattern := by
  rcases Nat.lt_or_eq_of_le hab with h | h
  · exact Nat.le_of_lt (table_sorted a b ea eb h ha hb)
  · subst h
    rw [ha] at hb
    cases hb
    exact Nat.le_refl _

theorem table_injective (a b : Nat) (ea eb : Entry) (ha : table[a]? = some ea)
    (hb : table[b]? = some eb) (h : ea.pattern = eb.pattern) : a = b := by
  rcases Nat.lt_trichotomy a b with hlt | heq | hgt
  · have := table_sorted a b ea eb hlt ha hb; omega
  · exact heq
  · have := table_sorted b a eb ea hgt hb ha; omega

theorem tableAt_ok (i : Int) (h0 : 0 ≤ i) (h1 : i ≤ 997) :
    ∃ e, tableAt i = .ok e ∧ table[i.toNat]? = some e := by
  have hlt : i.toNat < table.length := by rw [table_length]; omega
  refine ⟨table[i.toNat], ?_, List.getElem?_eq_getElem hlt⟩
  unfold tableAt
  rw [if_neg (by omega), List.getElem?_eq_getElem hlt]

/-- The facts about `delta[]` the search relies on: every entry before the last
is non-zero, and twice the next step is at most one more than the reach. -/
theorem delta_facts : ∀ j < 10,
    deltaAt j = .ok (delta.getD j 0) ∧ delta.getD j 0 ≠ 0 ∧
    deltaAt (j + 1) = .ok (delta.getD (j + 1) 0) ∧ 0 ≤ delta.getD (j + 1) 0 ∧
    reach j = reach (j + 1) + delta.getD (j + 1) 0 ∧
    2 * delta.getD (j + 1) 0 ≤ reach j + 1 ∧ 0 ≤ reach (j + 1) := by
  decide

theorem delta_last : deltaAt 10 = .ok 0 ∧ reach 9 = 0 ∧ reach 0 = 498 ∧ deltaAt 0 = .ok 499 := by
  decide

/-- The uniform binary search, from index `i` at step `j` with the candidates
within `reach j` of `i`: it returns a value; the value is -1 or the precomposed
value of an entry 1..997 with the needle as pattern; and an entry within reach
that has the needle as pattern is the one returned. -/
theorem precompose_loop_spec (needle : Nat) : ∀ (fuel j : Nat) (i : Int), j ≤ 10 →
    11 ≤ fuel + j → reach j + 1 ≤ i → i ≤ 997 - reach j →
    ∃ r, UCS2precompose.loop needle fuel i j = .ok r ∧
      (r = -1 ∨ ∃ k e, 1 ≤ k ∧ k ≤ 997 ∧ table[k]? = some e ∧ e.pattern = needle
        ∧ r = e.precomposed) ∧
      (j ≤ 9 → ∀ (k : Nat) (e : Entry), i - reach j ≤ (k : Int) → (k : Int) ≤ i + reach j →
        table[k]? = some e → e.pattern = needle → r = e.precomposed) := by
  intro fuel
  induction fuel with
  | zero => intro j i hj hf; omega
  | succ fuel ih =>
    intro j i hj hf hlo hhi
    rw [UCS2precompose.loop]
    by_cases hj10 : j = 10
    · subst hj10
      rw [delta_last.1]
      exact ⟨-1, by simp, Or.inl rfl, fun h => absurd h (by decide)⟩
    · have hj9 : j < 10 := by omega
      obtain ⟨hd, hdne, hd', hd'0, hreach, h2, hr0⟩ := delta_facts j hj9
      obtain ⟨e, hte, hge⟩ := tableAt_ok i (by omega) (by omega)
      rw [hd]
      simp only [hdne, ne_eq, not_false_eq_true, if_true]
      rw [hte]
      simp only [hd']
      by_cases hlt : needle < e.pattern
      · rw [if_pos hlt]
        obtain ⟨r, hr, hfound, hwin⟩ := ih (j + 1) (i - delta.getD (j + 1) 0) (by omega)
          (by omega) (by omega) (by omega)
        refine ⟨r, hr, hfound, ?_⟩
        intro _ k ek hk1 hk2 htk hpk
        have hki : (k : Int) < i := by
          by_contra hcon
          have hle : i.toNat ≤ k := by omega
          have := table_sorted_le i.toNat k e ek hle hge htk
          omega
        by_cases hj8 : j + 1 ≤ 9
        · exact hwin hj8 k ek (by omega) (by omega) htk hpk
        · have hj9' : j = 9 := by omega
          subst hj9'
          have := delta_last.2.1
          omega
      · rw [if_neg hlt]
        by_cases hgt : needle > e.pattern
        · rw [if_pos hgt]
          obtain ⟨r, hr, hfound, hwin⟩ := ih (j + 1) (i + delta.getD (j + 1) 0) (by omega)
            (by omega) (by omega) (by omega)
          refine ⟨r, hr, hfound, ?_⟩
          intro _ k ek hk1 hk2 htk hpk
          have hki : i < (k : Int) := by
            by_contra hcon
            have hle : k ≤ i.toNat := by omega
            have := table_sorted_le k i.toNat ek e hle htk hge
            omega
          by_cases hj8 : j + 1 ≤ 9
          · exact hwin hj8 k ek (by omega) (by omega) htk hpk
          · have hj9' : j = 9 := by omega
            subst hj9'
            have := delta_last.2.1
            omega
        · rw [if_neg hgt]
          have heq : e.pattern = needle := by omega
          refine ⟨e.precomposed, rfl,
            Or.inr ⟨i.toNat, e, by omega, by omega, hge, heq, rfl⟩, ?_⟩
          intro _ k ek hk1 hk2 htk hpk
          have hk : k = i.toNat := table_injective k i.toNat ek e htk hge (by omega)
          subst hk
          rw [hge] at htk
          cases htk
          rfl

theorem needle_eq (first second : Nat) (h1 : first < 65536) (h2 : second < 65536) :
    ((first <<< 16) ||| second) % 4294967296 = first * 65536 + second := by
  have h := Nat.mul_add_lt_is_or (i := 16) (b := second) (by omega) first
  rw [Nat.shiftLeft_eq, Nat.mul_comm first (2 ^ 16), ← h]
  omega

/-- The result of `UCS2precompose` for a pair of 16-bit units: it returns; the
value is -1 or the precomposed value of an entry 1..997 with the pattern
`first * 65536 + second`; and every entry 1..997 with that pattern is the one
returned. -/
theorem precompose_spec (first second : Nat) (h1 : first < 65536) (h2 : second < 65536) :
    ∃ r, UCS2precompose first second = .ok r ∧
      (r = -1 ∨ ∃ k e, 1 ≤ k ∧ k ≤ 997 ∧ table[k]? = some e
        ∧ e.pattern = first * 65536 + second ∧ r = e.precomposed) ∧
      (∀ k e, 1 ≤ k → k ≤ 997 → table[k]? = some e → e.pattern = first * 65536 + second →
        r = e.precomposed) := by
  unfold UCS2precompose
  rw [delta_last.2.2.2, needle_eq first second h1 h2]
  have hr0 := delta_last.2.2.1
  obtain ⟨r, hr, hfound, hwin⟩ := precompose_loop_spec (first * 65536 + second)
    (delta.length + 1) 0 499 (by omega) (by simp [delta]) (by omega) (by omega)
  exact ⟨r, hr, hfound, fun k e hk1 hk2 => hwin (by omega) k e (by omega) (by omega)⟩

theorem table_get (k : Nat) (hk : k < 998) : ∃ e, table[k]? = some e ∧ patternAt k = e.pattern := by
  have hlt : k < table.length := by rw [table_length]; exact hk
  refine ⟨table[k], List.getElem?_eq_getElem hlt, ?_⟩
  unfold patternAt
  rw [List.getElem?_eq_getElem hlt]

theorem patternAt_mono (a b : Nat) (hab : a ≤ b) (hb : b < 998) : patternAt a ≤ patternAt b := by
  obtain ⟨ea, ha, hpa⟩ := table_get a (by omega)
  obtain ⟨eb, hb', hpb⟩ := table_get b hb
  rw [hpa, hpb]
  exact table_sorted_le a b ea eb hab ha hb'

theorem lowerBound_spec (needle : Nat) : ∀ (fuel lo hi : Nat), hi - lo ≤ fuel → 1 ≤ lo →
    lo ≤ hi → hi ≤ 998 →
    (∀ k, 1 ≤ k → k < lo → patternAt k < needle) →
    (∀ k, hi ≤ k → k < 998 → needle ≤ patternAt k) →
    1 ≤ lowerBound needle fuel lo hi ∧ lowerBound needle fuel lo hi ≤ 998 ∧
    (∀ k, 1 ≤ k → k < lowerBound needle fuel lo hi → patternAt k < needle) ∧
    (∀ k, lowerBound needle fuel lo hi ≤ k → k < 998 → needle ≤ patternAt k) := by
  intro fuel
  induction fuel with
  | zero =>
    intro lo hi hf h1 hle h998 hbelow habove
    have : lo = hi := by omega
    subst this
    exact ⟨h1, h998, hbelow, habove⟩
  | succ fuel ih =>
    intro lo hi hf h1 hle h998 hbelow habove
    rw [lowerBound]
    by_cases hlt : lo < hi
    · rw [if_pos hlt]
      by_cases hmid : patternAt ((lo + hi) / 2) < needle
      · rw [if_pos hmid]
        apply ih _ _ (by omega) (by omega) (by omega) h998 _ habove
        intro k hk1 hk2
        exact Nat.lt_of_le_of_lt (patternAt_mono k _ (by omega) (by omega)) hmid
      · rw [if_neg hmid]
        apply ih _ _ (by omega) h1 (by omega) (by omega) hbelow
        intro k hk1 hk2
        exact Nat.le_trans (Nat.le_of_not_lt hmid) (patternAt_mono _ k hk1 hk2)
    · rw [if_neg hlt]
      have : lo = hi := by omega
      subst this
      exact ⟨h1, h998, hbelow, habove⟩

theorem mem_drop_one (k : Nat) (e : Entry) (hk : 1 ≤ k) (h : table[k]? = some e) :
    e ∈ table.drop 1 := by
  obtain ⟨m, rfl⟩ : ∃ m, k = 1 + m := ⟨k - 1, by omega⟩
  rw [← List.getElem?_drop] at h
  exact List.getElem?_mem h

theorem index_of_mem_drop_one (e : Entry) (h : e ∈ table.drop 1) :
    ∃ k, 1 ≤ k ∧ k ≤ 997 ∧ table[k]? = some e := by
  obtain ⟨m, hm, hme⟩ := List.getElem_of_mem h
  have hlen : m < 997 := by
    rw [List.length_drop, table_length] at hm
    exact hm
  refine ⟨1 + m, by omega, by omega, ?_⟩
  rw [← List.getElem?_drop, List.getElem?_eq_getElem hm, hme]

theorem precompose_found (first second : Nat) (h1 : first < 65536) (h2 : second < 65536)
    (k : Nat) (e : Entry) (hk1 : 1 ≤ k) (hk2 : k ≤ 997) (he : table[k]? = some e)
    (hp : e.pattern = first * 65536 + second) :
    UCS2precompose first second = .ok e.precomposed := by
  obtain ⟨r, hr, _, hwin⟩ := precompose_spec first second h1 h2
  rw [hr, hwin k e hk1 hk2 he hp]

theorem precompose_absent (first second : Nat) (h1 : first < 65536) (h2 : second < 65536)
    (habs : ∀ k e, 1 ≤ k → k ≤ 997 → table[k]? = some e → e.pattern ≠ first * 65536 + second) :
    UCS2precompose first second = .ok (-1) := by
  obtain ⟨r, hr, hfound, _⟩ := precompose_spec first second h1 h2
  rcases hfound with rfl | ⟨k, e, hk1, hk2, he, hp, _⟩
  · exact hr
  · exact absurd hp (habs k e hk1 hk2 he)

theorem precompose_eq_linearScan (first second : Nat) (h1 : first < 65536) (h2 : second < 65536) :
    UCS2precompose first second = .ok (linearScan (first * 65536 + second)) := by
  unfold linearScan
  cases hf : (table.drop 1).find? (fun e => e.pattern = first * 65536 + second) with
  | some e =>
    simp only
    have hp : e.pattern = first * 65536 + second := by
      simpa using List.find?_some hf
    obtain ⟨k, hk1, hk2, he⟩ := index_of_mem_drop_one e (List.mem_of_find?_eq_some hf)
    exact precompose_found first second h1 h2 k e hk1 hk2 he hp
  | none =>
    simp only
    apply precompose_absent first second h1 h2
    intro k e hk1 hk2 he hp
    have := List.find?_eq_none.mp hf e (mem_drop_one k e hk1 he)
    simp [hp] at this

theorem precompose_eq_binarySearch (first second : Nat) (h1 : first < 65536)
    (h2 : second < 65536) :
    UCS2precompose first second = .ok (binarySearch (first * 65536 + second)) := by
  obtain ⟨hr1, hr2, hbelow, habove⟩ := lowerBound_spec (first * 65536 + second) 998 1 998
    (by omega) (by omega) (by omega) (by omega) (fun k hk1 hk2 => by omega)
    (fun k hk1 hk2 => by omega)
  unfold binarySearch
  cases ht : table[lowerBound (first * 65536 + second) 998 1 998]? with
  | some e =>
    have hr3 : lowerBound (first * 65536 + second) 998 1 998 < 998 := by
      have := (List.getElem?_eq_some_iff.mp ht).1
      rw [table_length] at this
      exact this
    simp only
    by_cases hp : e.pattern = first * 65536 + second
    · rw [if_pos hp]
      exact precompose_found first second h1 h2 _ e hr1 (by omega) ht hp
    · rw [if_neg hp]
      apply precompose_absent first second h1 h2
      intro k ek hk1 hk2 hek hpk
      obtain ⟨ek', hek', hpat⟩ := table_get k (by omega)
      rw [hek] at hek'
      cases hek'
      obtain ⟨er, her, hpatr⟩ := table_get _ hr3
      rw [ht] at her
      cases her
      by_cases hkr : k < lowerBound (first * 65536 + second) 998 1 998
      · have := hbelow k hk1 hkr
        omega
      · have hge := habove _ (Nat.le_refl _) hr3
        have hmono := patternAt_mono _ k (Nat.le_of_not_lt hkr) (by omega)
        rcases Nat.lt_or_eq_of_le (Nat.le_of_not_lt hkr) with hlt | heq
        · have := table_sorted _ k e ek hlt ht hek
          omega
        · rw [heq] at ht
          rw [ht] at hek
          cases hek
          exact hp hpk
  | none =>
    simp only
    apply precompose_absent first second h1 h2
    intro k ek hk1 hk2 hek hpk
    have hr3 : ¬ lowerBound (first * 65536 + second) 998 1 998 < 998 := by
      intro hlt
      obtain ⟨er, her, _⟩ := table_get _ hlt
      rw [ht] at her
      cases her
    obtain ⟨ek', hek', hpat⟩ := table_get k (by omega)
    rw [hek] at hek'
    cases hek'
    have := hbelow k hk1 (by omega)
    omega

/-- C5: for every pair `(first, second)` of 16-bit values, `UCS2precompose`
returns the precomposed value of the entry among `table[1]`..`table[997]`
whose pattern equals `first * 65536 + second` when there is one, and -1 when
there is none; the uniform binary search returns exactly what a linear scan
and what a conventional lower-bound binary search of the same table return. -/
theorem UCS2precompose_refines (first second : Nat) (h1 : first < 65536) (h2 : second < 65536) :
    (∀ k e, 1 ≤ k → k ≤ 997 → table[k]? = some e → e.pattern = first * 65536 + second →
      UCS2precompose first second = .ok e.precomposed) ∧
    ((∀ k e, 1 ≤ k → k ≤ 997 → table[k]? = some e → e.pattern ≠ first * 65536 + second) →
      UCS2precompose first second = .ok (-1)) ∧
    UCS2precompose first second = .ok (linearScan (first * 65536 + second)) ∧
    UCS2precompose first second = .ok (binarySearch (first * 65536 + second)) :=
  ⟨fun k e hk1 hk2 he hp => precompose_found first second h1 h2 k e hk1 hk2 he hp,
   precompose_absent first second h1 h2,
   precompose_eq_linearScan first second h1 h2,
   precompose_eq_binarySearch first second h1 h2⟩

/-- Witness for C5: `A` with a combining grave accent is found, `A` with `A` is not. -/
theorem UCS2precompose_refines_witness :
    UCS2precompose 0x0041 0x0300 = .ok (linearScan (0x0041 * 65536 + 0x0300)) ∧
    UCS2precompose 0x0041 0x0041 = .ok (binarySearch (0x0041 * 65536 + 0x0041)) :=
  ⟨(UCS2precompose_refines 0x0041 0x0300 (by decide) (by decide)).2.2.1,
   (UCS2precompose_refines 0x0041 0x0041 (by decide) (by decide)).2.2.2⟩

set_option maxRecDepth 100000 in
/-- C6: for every entry of the table at index 1..997, `UCS2precompose` called
with the high 16 bits of the entry's pattern as `first` and the low 16 bits as
`second` returns the entry's own precomposed value; `UCS2precompose(0x0041,
0x0300)` is 0x00C0. -/
theorem UCS2precompose_self_lookup (k : Nat) (hk1 : 1 ≤ k) (hk2 : k ≤ 997) :
    (∃ e, table[k]? = some e ∧
      UCS2precompose (e.pattern / 65536) (e.pattern % 65536) = .ok e.precomposed) ∧
    UCS2precompose 0x0041 0x0300 = .ok 0x00C0 := by
  constructor
  · obtain ⟨e, he, _⟩ := table_get k (by omega)
    have h32 := table_patterns_32 e (List.getElem?_mem he)
    exact ⟨e, he, precompose_found _ _ (by omega) (Nat.mod_lt _ (by decide)) k e hk1 hk2 he
      (by omega)⟩
  · exact precompose_found 0x0041 0x0300 (by decide) (by decide) 1 ⟨0x00C0, 0x00410300⟩
      (by decide) (by decide) (by decide!) (by decide)

set_option maxRecDepth 100000 in
/-- Witness for C6: the last entry of the table, index 997. -/
theorem UCS2precompose_self_lookup_witness :
    UCS2precompose 0xFB49 0x05C2 = .ok 0xFB2D := by
  obtain ⟨e, he, hr⟩ := (UCS2precompose_self_lookup 997 (by omega) (by omega)).1
  have h : table[997]? = some ⟨0xFB2D, 0xFB4905C2⟩ := by decide!
  rw [h] at he
  cases he
  exact hr

/-- C7 (defect of the code): on the truncated input 0xE2 0x82 0x00 the sizing
pass and the conversion step over the terminator and read the byte after it
(a read outside the three-byte object), and with further bytes behind the
terminator the conversion goes on decoding them instead of stopping. -/
theorem UTF8toUCS2_truncated_reads_past_terminator :
    mbStrLen [0xE2, 0x82, 0x00] = .error .readPastEnd ∧
    UTF8toUCS2 true [0xE2, 0x82, 0x00] = .error .readPastEnd ∧
    UTF8toUCS2 false [0xE2, 0x82, 0x00] = .error .readPastEnd ∧
    charStart [0xE2, 0x82, 0x00, 0x41, 0x00] 1 = some [0x41, 0x00] ∧
    UTF8toUCS2 true [0xE2, 0x82, 0x00, 0x41, 0x00] = .ok [0x2A, 0x41, 0] := by
  decide

/-- C8 (defect of the code): on a little-endian host the result of
`UTF8toUCS2` for the string `A` is stored low byte first, 0x41 0x00, not high
byte first: `testINTEL` is 0, so its first stored byte is 0 on every host and
the swap never runs. -/
theorem UTF8toUCS2_le_stores_low_byte_first :
    (storedBytes true 0).1 = 0 ∧ (storedBytes false 0).1 = 0 ∧
    (UTF8toUCS2 true [0x41, 0x00]).map (List.map (storedBytes true))
      = .ok [(0x41, 0x00), (0x00, 0x00)] := by
  decide

/-! ## The fuel of the scanning loops never runs out -/

theorem rd_error (p : List Nat) (k : Nat) (e : Fault) (h : rd p k = .error e) :
    e = .readPastEnd := by
  unfold rd at h
  cases hk : p[k]? with
  | none => simp only [hk, Except.error.injEq] at h; exact h.symm
  | some b => simp [hk] at h

theorem mbCharLen_error (p : List Nat) (e : Fault) (h : mbCharLen p = .error e) :
    e = .readPastEnd := by
  unfold mbCharLen at h
  cases hr : rd p 0 with
  | error e2 =>
    simp only [hr, Except.error.injEq] at h
    rw [← h]
    exact rd_error p 0 e2 hr
  | ok c =>
    simp only [hr] at h
    split at h
    · split at h <;> simp at h
    · simp at h

theorem mbCharLen_nil : mbCharLen [] = .error .readPastEnd := rfl

theorem decodeChar_error (clen : Nat) (p : List Nat) (e : Fault)
    (h : UTF8toUCS2.decodeChar clen p = .error e) : e = .readPastEnd := by
  unfold UTF8toUCS2.decodeChar at h
  split at h
  · split at h
    · rename_i e2 hr
      simp only [Except.error.injEq] at h
      rw [← h]; exact rd_error p 0 e2 hr
    · simp at h
  · split at h
    · simp at h
    · simp only [Except.error.injEq] at h; exact h.symm
  · split at h
    · simp at h
    · simp only [Except.error.injEq] at h; exact h.symm
  · simp at h

theorem mbStrLen_loop_fuel : ∀ (n : Nat) (p : List Nat) (len : Nat), p.length < n →
    mbStrLen.loop n p len ≠ .error .outOfFuel := by
  intro n
  induction n with
  | zero => intro p len h; omega
  | succ n ih =>
    intro p len h
    rw [mbStrLen.loop]
    cases hc : mbCharLen p with
    | error e =>
      simp only [ne_eq, Except.error.injEq]
      rw [mbCharLen_error p e hc]
      decide
    | ok clen =>
      simp only
      by_cases hpos : clen > 0
      · simp only [hpos, if_true]
        apply ih
        cases p with
        | nil => rw [mbCharLen_nil] at hc; cases hc
        | cons c t =>
          simp only [List.length_drop, List.length_cons] at h ⊢
          omega
      · simp [hpos]

theorem UTF8toUCS2_loop_fuel : ∀ (n : Nat) (p : List Nat), p.length < n →
    UTF8toUCS2.loop n p ≠ .error .outOfFuel := by
  intro n
  induction n with
  | zero => intro p h; omega
  | succ n ih =>
    intro p h
    rw [UTF8toUCS2.loop]
    cases hc : mbCharLen p with
    | error e =>
      simp only [ne_eq, Except.error.injEq]
      rw [mbCharLen_error p e hc]
      decide
    | ok clen =>
      simp only
      by_cases hpos : clen > 0
      · simp only [hpos, if_true]
        cases hd : UTF8toUCS2.decodeChar clen p with
        | error e =>
          simp only [ne_eq, Except.error.injEq]
          rw [decodeChar_error clen p e hd]
          decide
        | ok c16 =>
          simp only
          have hlen : (p.drop clen).length < n := by
            cases p with
            | nil => rw [mbCharLen_nil] at hc; cases hc
            | cons c t =>
              simp only [List.length_drop, List.length_cons] at h ⊢
              omega
          cases hr : UTF8toUCS2.loop n (p.drop clen) with
          | error e =>
            simp only [ne_eq, Except.error.injEq]
            intro he
            exact ih _ hlen (by rw [hr, he])
          | ok rest => simp
      · simp [hpos]

/-- No run of `UTF8toUCS2` stops for lack of fuel: it returns a unit string or it
has read outside the object. -/
theorem UTF8toUCS2_ne_outOfFuel (le : Bool) (str : List Nat) :
    UTF8toUCS2 le str ≠ .error .outOfFuel := by
  unfold UTF8toUCS2
  have hz : (storedBytes le 0).1 = 0 := by cases le <;> rfl
  cases hm : mbStrLen str with
  | error e =>
    simp only [ne_eq, Except.error.injEq]
    intro he
    exact mbStrLen_loop_fuel _ str 0 (Nat.lt_succ_self _) (by rw [← he]; exact hm)
  | ok c =>
    simp only
    cases hl : UTF8toUCS2.loop (str.length + 1) str with
    | error e =>
      simp only [ne_eq, Except.error.injEq]
      intro he
      exact UTF8toUCS2_loop_fuel _ str (Nat.lt_succ_self _) (by rw [← he]; exact hl)
    | ok s => simp [hz]

/-! ## Byte order of the input of `UCS2toUTF8` -/

theorem loadUnit_le_bounds (b0 b1 : Nat) (h0 : b0 < 256) (h1 : b1 < 256) (hnz : b0 ≠ 0 ∨ b1 ≠ 0) :
    0 < loadUnit true b0 b1 ∧ loadUnit true b0 b1 < 65536 := by
  simp only [loadUnit, if_true]
  omega

/-- Counterexample to C9: the unit stored high byte first as 0x00 0x41 (value
0x41, UTF-8 `A`) is encoded as 0xE4 0x84 0x80 on a little-endian host and as an
empty string on a big-endian host. -/
theorem UCS2toUTF8_high_byte_first_fails :
    utf8OfUnit (0x00 * 256 + 0x41) ++ [0] = [0x41, 0] ∧
    UCS2toUTF8 true [loadUnit true 0x00 0x41, 0] = .ok [0xE4, 0x84, 0x80, 0] ∧
    UCS2toUTF8 false [loadUnit false 0x00 0x41, 0] = .ok [0x00, 0] := by
  decide

/-- C9 as amended: on a little-endian host `UCS2toUTF8` takes its input low
byte first: for every zero-terminated unit string whose units are stored as
the byte pairs `(lo, hi)`, the bytes it returns are the UTF-8 encoding of the
values `lo + 256 * hi`, followed by one zero byte. -/
theorem UCS2toUTF8_low_byte_first (cells : List (Nat × Nat)) (tail : List Nat)
    (hbyte : ∀ c ∈ cells, c.1 < 256 ∧ c.2 < 256) (hnz : ∀ c ∈ cells, c.1 ≠ 0 ∨ c.2 ≠ 0) :
    UCS2toUTF8 true (cells.map (fun c => loadUnit true c.1 c.2) ++ 0 :: tail)
      = .ok ((cells.map (fun c => utf8OfUnit (c.1 + 256 * c.2))).flatten ++ [0]) := by
  have hpos : ∀ v ∈ cells.map (fun c => loadUnit true c.1 c.2), 0 < v := by
    intro v hv
    obtain ⟨c, hc, rfl⟩ := List.mem_map.mp hv
    exact (loadUnit_le_bounds c.1 c.2 (hbyte c hc).1 (hbyte c hc).2 (hnz c hc)).1
  have h16 : ∀ v ∈ cells.map (fun c => loadUnit true c.1 c.2), v < 65536 := by
    intro v hv
    obtain ⟨c, hc, rfl⟩ := List.mem_map.mp hv
    exact (loadUnit_le_bounds c.1 c.2 (hbyte c hc).1 (hbyte c hc).2 (hnz c hc)).2
  simp only [UCS2toUTF8, str16len, str16len_loop_append _ tail hpos 0,
    UCS2toUTF8_loop_append _ tail hpos h16, List.map_map]
  rfl

/-- Witness for C9 as amended: `A` and U+20AC stored low byte first. -/
theorem UCS2toUTF8_low_byte_first_witness :
    UCS2toUTF8 true [loadUnit true 0x41 0x00, loadUnit true 0xAC 0x20, 0]
      = .ok [0x41, 0xE2, 0x82, 0xAC, 0] :=
  UCS2toUTF8_low_byte_first [(0x41, 0x00), (0xAC, 0x20)] [] (by decide) (by decide)

/-- C10 (defect of the code): on the input 0x80 0x41 0x00 the conversion stops
at the isolated continuation byte: the result is the empty string, the `A`
behind the byte is not in it, and there is no second character start. -/
theorem UTF8toUCS2_stops_at_continuation_byte :
    mbCharLen [0x80, 0x41, 0x00] = .ok 0 ∧
    charStart [0x80, 0x41, 0x00] 1 = none ∧
    UTF8toUCS2 true [0x80, 0x41, 0x00] = .ok [0] ∧
    UTF8toUCS2 false [0x80, 0x41, 0x00] = .ok [0] := by
  decide

/-! ## The length of a character and the count of characters -/

theorem mbCharLen_head (c : Nat) (t : List Nat) : mbCharLen (c :: t) = mbCharLen [c] := by
  unfold mbCharLen rd
  simp only [List.getElem?_cons_zero]

set_option maxRecDepth 100000 in
theorem mbCharLen_low_facts : ∀ c < 256,
    (c = 0 → mbCharLen [c] = .ok 0) ∧
    (0x01 ≤ c ∧ c ≤ 0x7F → leadingOnes c = 0 ∧ mbCharLen [c] = .ok 1) ∧
    (0x80 ≤ c ∧ c ≤ 0xBF → leadingOnes c = 1 ∧ mbCharLen [c] = .ok 0) := by
  decide

set_option maxRecDepth 100000 in
theorem mbCharLen_mid_facts : ∀ c < 256,
    (0xC0 ≤ c ∧ c ≤ 0xDF → leadingOnes c = 2 ∧ mbCharLen [c] = .ok 2) ∧
    (0xE0 ≤ c ∧ c ≤ 0xEF → leadingOnes c = 3 ∧ mbCharLen [c] = .ok 3) ∧
    (0xF0 ≤ c ∧ c ≤ 0xF7 → leadingOnes c = 4) := by
  decide

set_option maxRecDepth 100000 in
theorem mbCharLen_high_facts : ∀ c < 256, 0xF0 ≤ c →
    4 ≤ leadingOnes c ∧ leadingOnes c ≤ 8 ∧ mbCharLen [c] = .ok (leadingOnes c) := by
  decide

set_option maxRecDepth 100000 in
theorem leadingOnes_low : ∀ c < 256, c < 0xF0 → leadingOnes c < 4 := by
  decide

/-- C12: for every byte `c`, `mbCharLen` on a string starting with `c` returns
0 when `c = 0`, 1 when `c` has no leading 1 bit (0x01..0x7F), 0 when `c` has
exactly one leading 1 bit (0x80..0xBF), and 2, 3, 4 when `c` has exactly 2, 3,
4 leading 1 bits (0xC0..0xDF, 0xE0..0xEF, 0xF0..0xF7). -/
theorem mbCharLen_by_lead (c : Nat) (t : List Nat) (hc : c < 256) :
    (c = 0 → mbCharLen (c :: t) = .ok 0) ∧
    (0x01 ≤ c ∧ c ≤ 0x7F → leadingOnes c = 0 ∧ mbCharLen (c :: t) = .ok 1) ∧
    (0x80 ≤ c ∧ c ≤ 0xBF → leadingOnes c = 1 ∧ mbCharLen (c :: t) = .ok 0) ∧
    (0xC0 ≤ c ∧ c ≤ 0xDF → leadingOnes c = 2 ∧ mbCharLen (c :: t) = .ok 2) ∧
    (0xE0 ≤ c ∧ c ≤ 0xEF → leadingOnes c = 3 ∧ mbCharLen (c :: t) = .ok 3) ∧
    (0xF0 ≤ c ∧ c ≤ 0xF7 → leadingOnes c = 4 ∧ mbCharLen (c :: t) = .ok 4) := by
  obtain ⟨h0, h1, h2⟩ := mbCharLen_low_facts c hc
  obtain ⟨h3, h4, h6⟩ := mbCharLen_mid_facts c hc
  rw [mbCharLen_head c t]
  refine ⟨h0, h1, h2, h3, h4, ?_⟩
  intro h
  have h4' := h6 h
  have h5' := (mbCharLen_high_facts c hc h.1).2.2
  rw [h4'] at h5'
  exact ⟨h4', h5'⟩

/-- Witness for C12: the lead byte 0xE2 of a 3-byte character. -/
theorem mbCharLen_by_lead_witness :
    leadingOnes 0xE2 = 3 ∧ mbCharLen [0xE2, 0x82, 0xAC, 0] = .ok 3 :=
  (mbCharLen_by_lead 0xE2 [0x82, 0xAC, 0] (by decide)).2.2.2.2.1 ⟨by decide, by decide⟩

set_option maxRecDepth 100000 in
theorem leadingOnes_f8 : ∀ c < 256, 0xF8 ≤ c → 5 ≤ leadingOnes c := by decide

/-- Counterexample to C13: for the bytes 0xF8 and 0xFF, `mbCharLen` returns 5
and 8, outside the range 0..4. -/
theorem mbCharLen_above_four :
    mbCharLen [0xF8, 0] = .ok 5 ∧ mbCharLen [0xFF, 0] = .ok 8 ∧ ¬ (5 ≤ 4) ∧ ¬ (8 ≤ 4) := by
  decide

/-- C13 as amended: for every byte value at the inspected position (all 256
values), the integer returned by `mbCharLen` lies in the range 0..8; it is the
number of leading 1 bits for the bytes 0xF8..0xFF. -/
theorem mbCharLen_range (c : Nat) (t : List Nat) (hc : c < 256) :
    ∃ n, mbCharLen (c :: t) = .ok n ∧ n ≤ 8 ∧ (0xF8 ≤ c → n = leadingOnes c ∧ 5 ≤ n) := by
  rw [mbCharLen_head c t]
  by_cases hf : 0xF0 ≤ c
  · obtain ⟨hl4, hl8, hm⟩ := mbCharLen_high_facts c hc hf
    refine ⟨leadingOnes c, hm, hl8, ?_⟩
    intro h8
    refine ⟨rfl, ?_⟩
    have := leadingOnes_f8 c hc h8
    omega
  · refine ⟨_, mbCharLen_cons c [] hc, ?_, ?_⟩
    · split_ifs <;> omega
    · intro h8
      omega

/-- Witness for C13 as amended: the byte 0xFC. -/
theorem mbCharLen_range_witness :
    ∃ n, mbCharLen [0xFC, 0] = .ok n ∧ n ≤ 8 ∧ (0xF8 ≤ 0xFC → n = leadingOnes 0xFC ∧ 5 ≤ n) :=
  mbCharLen_range 0xFC [0] (by decide)

theorem mbStrLen_loop_ascii (s tail : List Nat) (hs : ∀ b ∈ s, 0x01 ≤ b ∧ b ≤ 0x7F) :
    ∀ (n len : Nat), s.length < n → mbStrLen.loop n (s ++ 0 :: tail) len = .ok (len + s.length) := by
  induction s with
  | nil =>
    intro n len hn
    obtain ⟨m, rfl⟩ : ∃ m, n = m + 1 := ⟨n - 1, by simp at hn; omega⟩
    simp [mbStrLen_loop_zero]
  | cons b s ih =>
    intro n len hn
    obtain ⟨m, rfl⟩ : ∃ m, n = m + 1 := ⟨n - 1, by simp at hn; omega⟩
    have hb := hs b (List.mem_cons_self _ _)
    rw [List.cons_append, mbStrLen.loop, mbCharLen_cons b _ (by omega)]
    have c1 : ¬ (b = 0) := by omega
    have c2 : b < 0x80 := by omega
    simp only [c1, c2, if_true, if_false, Nat.zero_lt_one, List.drop_succ_cons, List.drop_zero]
    rw [ih (fun x hx => hs x (List.mem_cons_of_mem _ hx)) m (len + 1)
      (by simp only [List.length_cons] at hn; omega), List.length_cons]
    congr 1
    omega

/-- C14: `mbStrLen` returns 0 on the empty string, and for every
zero-terminated string made of `L` bytes all in 0x01..0x7F it returns `L`. -/
theorem mbStrLen_ascii (s tail : List Nat) (hs : ∀ b ∈ s, 0x01 ≤ b ∧ b ≤ 0x7F) :
    mbStrLen (0 :: tail) = .ok 0 ∧ mbStrLen (s ++ 0 :: tail) = .ok s.length := by
  constructor
  · unfold mbStrLen
    rw [List.length_cons, mbStrLen_loop_zero]
  · unfold mbStrLen
    rw [mbStrLen_loop_ascii s tail hs _ 0
      (by simp only [List.length_append, List.length_cons]; omega), Nat.zero_add]

/-- Witness for C14: the string `Hi!`. -/
theorem mbStrLen_ascii_witness :
    mbStrLen [0] = .ok 0 ∧ mbStrLen [0x48, 0x69, 0x21, 0] = .ok 3 :=
  mbStrLen_ascii [0x48, 0x69, 0x21] [] (by decide)

/-- C15 (defect of the code): `mbStrLen` of the bytes 0x80 0x41 0x00 is 0, not
2: the count stops at the byte of the form 10xxxxxx, for which `mbCharLen`
returns 0, the value it returns at the end of the string. -/
theorem mbStrLen_stops_at_continuation_byte :
    mbCharLen [0x80, 0x41, 0x00] = .ok 0 ∧ mbStrLen [0x80, 0x41, 0x00] = .ok 0 ∧
    mbStrLen [0x41, 0x80, 0x41, 0x00] = .ok 1 := by
  decide

/-! ## Sequences of four bytes and more -/

theorem decodeChar_long (k : Nat) (p : List Nat) (hk : 4 ≤ k) :
    UTF8toUCS2.decodeChar k p = .ok 0x7E := by
  obtain ⟨m, rfl⟩ : ∃ m, k = m + 4 := ⟨k - 4, by omega⟩
  rfl

theorem mbCharLen_long (c : Nat) (t : List Nat) (hc : c < 256) (hk : 4 ≤ leadingOnes c) :
    mbCharLen (c :: t) = .ok (leadingOnes c) := by
  have hf : 0xF0 ≤ c := by
    by_contra h
    have := leadingOnes_low c hc (by omega)
    omega
  rw [mbCharLen_head c t]
  exact (mbCharLen_high_facts c hc hf).2.2

theorem drop_lead (c : Nat) (body rest : List Nat) (k : Nat) (hbody : body.length + 1 = k) :
    (c :: (body ++ rest)).drop k = rest := by
  subst hbody
  rw [List.drop_succ_cons, List.drop_left]

theorem loop_long (c : Nat) (body rest : List Nat) (fuel : Nat) (hc : c < 256)
    (hk : 4 ≤ leadingOnes c) (hbody : body.length + 1 = leadingOnes c) :
    UTF8toUCS2.loop (fuel + 1) (c :: (body ++ rest)) =
      (UTF8toUCS2.loop fuel rest).map (fun out => 0x7E :: out) := by
  have hpos : leadingOnes c > 0 := by omega
  rw [UTF8toUCS2.loop, mbCharLen_long c _ hc hk]
  simp only [hpos, if_true, decodeChar_long _ _ hk, drop_lead c body rest _ hbody]
  cases UTF8toUCS2.loop fuel rest <;> rfl

/-- C11: at every character start of a byte string whose byte `c` has
`k ≥ 4` leading 1 bits and is followed by `k - 1` further bytes `body` of the
sequence (every well-formed 4-byte UTF-8 sequence in particular),
`UTF8toUCS2` stores exactly one unit 0x7E for the whole sequence and goes on
`k` bytes later: the next character start is the byte behind `body`, and unit
number `n` of the result is 0x7E. -/
theorem UTF8toUCS2_long_sequence (le : Bool) (str : List Nat) (n c : Nat)
    (body rest : List Nat) (hc : c < 256) (hk : 4 ≤ leadingOnes c)
    (hbody : body.length + 1 = leadingOnes c)
    (hstart : charStart str n = some (c :: (body ++ rest))) :
    (∀ fuel, UTF8toUCS2.loop (fuel + 1) (c :: (body ++ rest)) =
      (UTF8toUCS2.loop fuel rest).map (fun out => 0x7E :: out)) ∧
    charStart str (n + 1) = some rest ∧
    (∀ out, UTF8toUCS2 le str = .ok out → out[n]? = some 0x7E) := by
  refine ⟨fun fuel => loop_long c body rest fuel hc hk hbody, ?_, ?_⟩
  · have hpos : leadingOnes c > 0 := by omega
    rw [charStart, hstart]
    simp only [mbCharLen_long c _ hc hk, hpos, if_true, drop_lead c body rest _ hbody]
  · intro out hout
    obtain ⟨m, hm⟩ := loop_at_charStart str n _ out _ (UTF8toUCS2_eq_loop le str out hout) hstart
    cases m with
    | zero => simp [UTF8toUCS2.loop] at hm
    | succ m =>
      rw [loop_long c body rest m hc hk hbody] at hm
      cases hr : UTF8toUCS2.loop m rest with
      | error e => simp [hr, Except.map] at hm
      | ok tl =>
        simp only [hr, Except.map, Except.ok.injEq] at hm
        have h0 : (List.drop n out)[0]? = some 0x7E := by rw [← hm]; simp
        simpa using h0

/-- Witness for C11: `A`, the 4-byte sequence of U+1F600, `B`. -/
theorem UTF8toUCS2_long_sequence_witness :
    UTF8toUCS2 true [0x41, 0xF0, 0x9F, 0x98, 0x80, 0x42, 0] = .ok [0x41, 0x7E, 0x42, 0] ∧
    charStart [0x41, 0xF0, 0x9F, 0x98, 0x80, 0x42, 0] 2 = some [0x42, 0] ∧
    [0x41, 0x7E, 0x42, 0][1]? = some 0x7E :=
  have hout : UTF8toUCS2 true [0x41, 0xF0, 0x9F, 0x98, 0x80, 0x42, 0]
      = .ok [0x41, 0x7E, 0x42, 0] := by decide
  have h := UTF8toUCS2_long_sequence true [0x41, 0xF0, 0x9F, 0x98, 0x80, 0x42, 0] 1 0xF0
    [0x9F, 0x98, 0x80] [0x42, 0] (by decide) (by decide) (by decide) (by decide)
  ⟨hout, h.2.1, h.2.2 _ hout⟩

/-! ## The cells the search reads and the values it returns -/

/-- The search with its reads recorded returns what the search returns; every
index of `table[]` it reads lies in 1..997, every index of `delta[]` in 0..10,
and from step `j` on it makes at most `10 - j` comparisons. -/
theorem precompose_trace_spec (needle : Nat) : ∀ (fuel j : Nat) (i : Int), j ≤ 10 →
    11 ≤ fuel + j → reach j + 1 ≤ i → i ≤ 997 - reach j →
    ∃ run, UCS2precompose.traceLoop needle fuel i j = .ok run ∧
      UCS2precompose.loop needle fuel i j = .ok run.result ∧
      (∀ x ∈ run.tableReads, 1 ≤ x ∧ x ≤ 997) ∧
      (∀ y ∈ run.deltaReads, y ≤ 10) ∧
      run.tableReads.length + j ≤ 10 := by
  intro fuel
  induction fuel with
  | zero => intro j i hj hf; omega
  | succ fuel ih =>
    intro j i hj hf hlo hhi
    rw [UCS2precompose.traceLoop, UCS2precompose.loop]
    by_cases hj10 : j = 10
    · subst hj10
      rw [delta_last.1]
      refine ⟨⟨-1, [], [10]⟩, by simp, by simp, by simp, by simp, by simp⟩
    · have hj9 : j < 10 := by omega
      obtain ⟨hd, hdne, hd', hd'0, hreach, h2, hr0⟩ := delta_facts j hj9
      obtain ⟨e, hte, hge⟩ := tableAt_ok i (by omega) (by omega)
      rw [hd]
      simp only [hdne, ne_eq, not_false_eq_true, if_true]
      rw [hte]
      simp only [hd']
      by_cases hlt : needle < e.pattern
      · simp only [if_pos hlt]
        obtain ⟨run, hrun, hres, htab, hdel, hlen⟩ := ih (j + 1) (i - delta.getD (j + 1) 0)
          (by omega) (by omega) (by omega) (by omega)
        refine ⟨⟨run.result, i :: run.tableReads, j :: (j + 1) :: run.deltaReads⟩, ?_, hres,
          ?_, ?_, ?_⟩
        · rw [hrun]
        · intro x hx
          rcases List.mem_cons.mp hx with rfl | hx
          · omega
          · exact htab x hx
        · intro y hy
          rcases List.mem_cons.mp hy with rfl | hy
          · omega
          · rcases List.mem_cons.mp hy with rfl | hy
            · omega
            · exact hdel y hy
        · simp only [List.length_cons]
          omega
      · simp only [if_neg hlt]
        by_cases hgt : needle > e.pattern
        · simp only [if_pos hgt]
          obtain ⟨run, hrun, hres, htab, hdel, hlen⟩ := ih (j + 1) (i + delta.getD (j + 1) 0)
            (by omega) (by omega) (by omega) (by omega)
          refine ⟨⟨run.result, i :: run.tableReads, j :: (j + 1) :: run.deltaReads⟩, ?_, hres,
            ?_, ?_, ?_⟩
          · rw [hrun]
          · intro x hx
            rcases List.mem_cons.mp hx with rfl | hx
            · omega
            · exact htab x hx
          · intro y hy
            rcases List.mem_cons.mp hy with rfl | hy
            · omega
            · rcases List.mem_cons.mp hy with rfl | hy
              · omega
              · exact hdel y hy
          · simp only [List.length_cons]
            omega
        · simp only [if_neg hgt]
          refine ⟨⟨e.precomposed, [i], [j]⟩, rfl, rfl, ?_, ?_, ?_⟩
          · intro x hx
            rcases List.mem_singleton.mp hx with rfl
            omega
          · intro y hy
            rcases List.mem_singleton.mp hy with rfl
            omega
          · simp only [List.length_singleton]
            omega

/-- The reads of `UCS2precompose` for a pair of 16-bit units. -/
theorem precompose_reads (first second : Nat) :
    ∃ run, UCS2precompose.trace first second = .ok run ∧
      UCS2precompose first second = .ok run.result ∧
      (∀ x ∈ run.tableReads, 1 ≤ x ∧ x ≤ 997) ∧
      (∀ y ∈ run.deltaReads, y ≤ 10) ∧
      run.tableReads.length ≤ 10 := by
  unfold UCS2precompose.trace UCS2precompose
  rw [delta_last.2.2.2]
  have hr0 := delta_last.2.2.1
  obtain ⟨run, hrun, hres, htab, hdel, hlen⟩ := precompose_trace_spec
    (((first <<< 16) ||| second) % 4294967296) (delta.length + 1) 0 499 (by omega)
    (by simp [delta]) (by omega) (by omega)
  refine ⟨⟨run.result, run.tableReads, 0 :: run.deltaReads⟩, ?_, hres, htab, ?_,
    Nat.le_trans (Nat.le_add_right _ _) hlen⟩
  · simp only [hrun]
  · intro y hy
    rcases List.mem_cons.mp hy with rfl | hy
    · omega
    · exact hdel y hy

set_option maxRecDepth 100000 in
theorem table_zero : table[0]? = some ⟨0, 0⟩ := by decide!

set_option maxRecDepth 100000 in
theorem table_precomposed_16 : ∀ e ∈ table, 0 ≤ e.precomposed ∧ e.precomposed ≤ 0xFFFF := by
  decide!

/-- C16: the dummy entry `table[0]` (pattern 0, precomposed 0) never matches:
`UCS2precompose(0x0000, 0x0000)` returns -1, and for every pair
`(first, second)` the search returns without ever reading `table[0]`: the
value returned is not taken from it. -/
theorem UCS2precompose_skips_dummy (first second : Nat) :
    table[0]? = some ⟨0, 0⟩ ∧
    UCS2precompose 0x0000 0x0000 = .ok (-1) ∧
    ∃ run, UCS2precompose.trace first second = .ok run ∧
      UCS2precompose first second = .ok run.result ∧ (0 : Int) ∉ run.tableReads := by
  refine ⟨table_zero, ?_, ?_⟩
  · apply precompose_absent 0 0 (by omega) (by omega)
    intro k e hk1 hk2 he hp
    have := table_sorted 0 k ⟨0, 0⟩ e (by omega) table_zero he
    simp only at this
    omega
  · obtain ⟨run, hrun, hres, htab, _, _⟩ := precompose_reads first second
    refine ⟨run, hrun, hres, ?_⟩
    intro h0
    have := (htab 0 h0).1
    omega

/-- C17: for every pair `(first, second)` of 16-bit values the result of
`UCS2precompose` is either -1 or a value in 0..0xFFFF, which a cast to `char16`
leaves unchanged; every precomposed value stored in the table is non-negative
and fits in 16 bits. -/
theorem UCS2precompose_range (first second : Nat) (h1 : first < 65536) (h2 : second < 65536) :
    (∀ e ∈ table, 0 ≤ e.precomposed ∧ e.precomposed ≤ 0xFFFF) ∧
    ∃ r, UCS2precompose first second = .ok r ∧
      (r = -1 ∨ (0 ≤ r ∧ r ≤ 0xFFFF ∧ r % 65536 = r)) := by
  refine ⟨table_precomposed_16, ?_⟩
  obtain ⟨r, hr, hfound, _⟩ := precompose_spec first second h1 h2
  refine ⟨r, hr, ?_⟩
  rcases hfound with h | ⟨k, e, _, _, he, _, hre⟩
  · exact Or.inl h
  · have := table_precomposed_16 e (List.getElem?_mem he)
    right
    rw [hre]
    omega

/-- Witness for C17: `A` with a combining grave accent gives 0x00C0. -/
theorem UCS2precompose_range_witness :
    ∃ r, UCS2precompose 0x0041 0x0300 = .ok r ∧
      (r = -1 ∨ (0 ≤ r ∧ r ≤ 0xFFFF ∧ r % 65536 = r)) :=
  (UCS2precompose_range 0x0041 0x0300 (by decide) (by decide)).2

/-! ## The output buffer of `UCS2toUTF8`, allocation failure, `str16chr` -/

theorem UCS2toUTF8_loop_length (le : Bool) (units tail : List Nat) (hpos : ∀ v ∈ units, 0 < v) :
    ∃ out, UCS2toUTF8.loop le (units ++ 0 :: tail) = .ok out ∧
      out.length ≤ 3 * units.length + 1 := by
  induction units with
  | nil => exact ⟨[0], by simp [UCS2toUTF8.loop], by simp⟩
  | cons u us ih =>
    obtain ⟨out, hout, hlen⟩ := ih (fun v hv => hpos v (List.mem_cons_of_mem _ hv))
    have hu : u > 0 := hpos u (List.mem_cons_self _ _)
    rw [List.cons_append, UCS2toUTF8.loop]
    simp only [hu, if_true, hout]
    refine ⟨_, rfl, ?_⟩
    rw [List.length_append, List.length_cons]
    split_ifs <;> simp only [List.length_cons, List.length_nil] <;> omega

theorem UCS2toUTF8_loop_length_ge (le : Bool) (units tail : List Nat)
    (hpos : ∀ v ∈ units, 0 < v) :
    ∃ out, UCS2toUTF8.loop le (units ++ 0 :: tail) = .ok out ∧
      units.length + 1 ≤ out.length := by
  induction units with
  | nil => exact ⟨[0], by simp [UCS2toUTF8.loop], by simp⟩
  | cons u us ih =>
    obtain ⟨out, hout, hlen⟩ := ih (fun v hv => hpos v (List.mem_cons_of_mem _ hv))
    have hu : u > 0 := hpos u (List.mem_cons_self _ _)
    rw [List.cons_append, UCS2toUTF8.loop]
    simp only [hu, if_true, hout]
    refine ⟨_, rfl, ?_⟩
    rw [List.length_append, List.length_cons]
    split_ifs <;> simp only [List.length_cons, List.length_nil] <;> omega

/-- For a zero-terminated 16-bit string of `len` units whose tripled length
fits an `int`, on either byte order, `UCS2toUTF8` asks for a buffer of
`3 * len + 1` bytes and writes at most `3 * len + 1` bytes, terminator
included. -/
theorem UCS2toUTF8_within_buffer_small (le : Bool) (units tail : List Nat)
    (hpos : ∀ v ∈ units, 0 < v) (hsmall : units.length * 3 ≤ 2147483647) :
    str16len (units ++ 0 :: tail) = .ok units.length ∧
    UCS2toUTF8.allocSize (units ++ 0 :: tail) = .ok (3 * units.length + 1) ∧
    ∃ out, UCS2toUTF8 le (units ++ 0 :: tail) = .ok out ∧
      out.length ≤ 3 * units.length + 1 := by
  have hlen : str16len (units ++ 0 :: tail) = .ok units.length := by
    unfold str16len
    rw [str16len_loop_append units tail hpos 0, Nat.zero_add]
  refine ⟨hlen, ?_, ?_⟩
  · unfold UCS2toUTF8.allocSize
    rw [hlen]
    simp only [hsmall, if_true]
    congr 1
    omega
  · obtain ⟨out, hout, hbound⟩ := UCS2toUTF8_loop_length le units tail hpos
    refine ⟨out, ?_, hbound⟩
    unfold UCS2toUTF8
    rw [hlen]
    exact hout

/-- A string of `n` units `A` whose tripled length does not fit an `int`:
`str16len` is `n`, the size computation overflows, and the loop writes at
least `n + 1` bytes. -/
theorem UCS2toUTF8_size_overflow (le : Bool) (n : Nat) (hn : 2147483647 < n * 3) :
    str16len (List.replicate n 0x41 ++ [0]) = .ok n ∧
    UCS2toUTF8.allocSize (List.replicate n 0x41 ++ [0]) = .error .intOverflow ∧
    ∃ out, UCS2toUTF8 le (List.replicate n 0x41 ++ [0]) = .ok out ∧ n + 1 ≤ out.length := by
  have hpos : ∀ v ∈ List.replicate n 0x41, 0 < v := by
    intro v hv
    rw [List.eq_of_mem_replicate hv]
    decide
  have hlen : str16len (List.replicate n 0x41 ++ [0]) = .ok n := by
    unfold str16len
    rw [str16len_loop_append _ [] hpos 0, Nat.zero_add, List.length_replicate]
  refine ⟨hlen, ?_, ?_⟩
  · unfold UCS2toUTF8.allocSize
    rw [hlen]
    simp only [Nat.not_le.mpr hn, if_false]
  · obtain ⟨out, hout, hbound⟩ := UCS2toUTF8_loop_length_ge le (List.replicate n 0x41) [] hpos
    rw [List.length_replicate] at hbound
    refine ⟨out, ?_, hbound⟩
    unfold UCS2toUTF8
    rw [hlen]
    exact hout

/-- C18 (defect of the code): for the zero-terminated string of 1431655766
units `A`, a length that fits an `int`, the product `len16 * 3` in the size
handed to `malloc` overflows the `int` (wrapped to 32 bits it is 2, a request
for 3 bytes), while the loop writes at least 1431655767 bytes: the buffer is
not one of `3 * len + 1` bytes and the writes do not stay inside it. -/
theorem UCS2toUTF8_buffer_size_overflows :
    (1431655766 ≤ 2147483647 ∧ 2147483647 < 1431655766 * 3 ∧
      wrapInt32 (1431655766 * 3) * 1 + 1 = 3) ∧
    str16len (List.replicate 1431655766 0x41 ++ [0]) = .ok 1431655766 ∧
    UCS2toUTF8.allocSize (List.replicate 1431655766 0x41 ++ [0]) = .error .intOverflow ∧
    ∃ out, UCS2toUTF8 true (List.replicate 1431655766 0x41 ++ [0]) = .ok out ∧
      1431655766 + 1 ≤ out.length :=
  ⟨by decide, UCS2toUTF8_size_overflow true 1431655766 (by decide)⟩

/-- C19 (defect of the code): when `malloc` returns `NULL`, `UTF8toUCS2`
returns `NULL`, but `UCS2toUTF8` stores through the null pointer: for the
string `A` its first store is the byte of `A`, for the empty string it is the
terminator. -/
theorem UCS2toUTF8_stores_through_null :
    UTF8toUCS2.alloc false true [0x41, 0] = .ok none ∧
    UTF8toUCS2.alloc false false [0x41, 0] = .ok none ∧
    UCS2toUTF8.alloc false true [0x41, 0] = .error .nullWrite ∧
    UCS2toUTF8.alloc false true [0] = .error .nullWrite ∧
    UCS2toUTF8.alloc false false [0] = .error .nullWrite ∧
    UCS2toUTF8.alloc true true [0x41, 0] = .ok (some [0x41, 0]) := by
  decide

/-- C20 (defect of the code): on a little-endian host `str16chr` does not find
`A` in the result of `UTF8toUCS2` for the string `A` (the unit 0x0041), and in
the string of the one unit 0x4100 it finds `A` at position 0: it looks for a
unit whose first stored byte is 0 and whose second stored byte is `ch`. -/
theorem str16chr_le_misses_unit :
    UTF8toUCS2 true [0x41, 0] = .ok [0x0041, 0] ∧
    str16chr true [0x0041, 0] 0x41 = .ok none ∧
    str16chr true [0x4100, 0] 0x41 = .ok (some 0) ∧
    str16chr false [0x0041, 0] 0x41 = .ok (some 0) := by
  decide

/-! ## Copying with a bound, index bounds, order of the table, the delta sequence -/

theorem str16ncpy_take (units tail : List Nat) (hpos : ∀ v ∈ units, v ≠ 0) :
    ∀ n, str16ncpy (units ++ 0 :: tail) n = .ok (units.take n ++ [0]) := by
  induction units with
  | nil =>
    intro n
    cases n with
    | zero => simp [str16ncpy]
    | succ n => simp [str16ncpy]
  | cons u us ih =>
    intro n
    cases n with
    | zero => simp [str16ncpy]
    | succ n =>
      have hu : u ≠ 0 := hpos u (List.mem_cons_self _ _)
      rw [List.cons_append, str16ncpy, if_pos hu,
        ih (fun v hv => hpos v (List.mem_cons_of_mem _ hv)) n]
      simp

/-- C21: for every zero-terminated `char16` string `src` and every `n`,
`str16ncpy(dest, src, n)` writes the first `min(n, str16len(src))` units of
`src` followed by a zero unit, at most `n + 1` units in all. -/
theorem str16ncpy_spec (units tail : List Nat) (n : Nat) (hpos : ∀ v ∈ units, v ≠ 0) :
    str16len (units ++ 0 :: tail) = .ok units.length ∧
    ∃ written, str16ncpy (units ++ 0 :: tail) n = .ok (written ++ [0]) ∧
      written = units.take (min n units.length) ∧
      written.length = min n units.length ∧
      (written ++ [0]).length ≤ n + 1 := by
  constructor
  · unfold str16len
    rw [str16len_loop_append units tail (fun v hv => Nat.pos_of_ne_zero (hpos v hv)) 0,
      Nat.zero_add]
  · refine ⟨units.take n, str16ncpy_take units tail hpos n, ?_, ?_, ?_⟩
    · rw [List.take_eq_take]
      simp
    · rw [List.length_take]
    · rw [List.length_append, List.length_take, List.length_singleton]
      omega

/-- Witness for C21: two units of a string of three are copied. -/
theorem str16ncpy_spec_witness :
    ∃ written, str16ncpy [0x41, 0x20AC, 0x42, 0] 2 = .ok (written ++ [0]) ∧
      written = [0x41, 0x20AC, 0x42].take (min 2 [0x41, 0x20AC, 0x42].length) ∧
      written.length = min 2 [0x41, 0x20AC, 0x42].length ∧
      (written ++ [0]).length ≤ 2 + 1 :=
  (str16ncpy_spec [0x41, 0x20AC, 0x42] [] 2 (by decide)).2

/-- C22: for every pair `(first, second)`, every index at which
`UCS2precompose` reads `table[]` lies in 1..997 (the table has 998 entries),
every index at which it reads `delta[]` lies in 0..10 (`delta[]` has 11
entries), and the loop ends after at most 10 comparisons with a result. -/
theorem UCS2precompose_index_bounds (first second : Nat) :
    table.length = 998 ∧ delta.length = 11 ∧
    ∃ run, UCS2precompose.trace first second = .ok run ∧
      UCS2precompose first second = .ok run.result ∧
      (∀ i ∈ run.tableReads, 1 ≤ i ∧ i ≤ 997) ∧
      (∀ j ∈ run.deltaReads, 0 ≤ j ∧ j ≤ 10) ∧
      run.tableReads.length ≤ 10 := by
  refine ⟨table_length, rfl, ?_⟩
  obtain ⟨run, hrun, hres, htab, hdel, hlen⟩ := precompose_reads first second
  exact ⟨run, hrun, hres, htab, fun j hj => ⟨Nat.zero_le j, hdel j hj⟩, hlen⟩

/-- C23: the table is sorted strictly ascending by pattern, without duplicate
keys: for every index `i` with `0 ≤ i < 997`, `table[i].pattern <
table[i+1].pattern`, both below 2^32. -/
theorem table_strictly_ascending (i : Nat) (hi : i < 997) :
    ∃ e f, table[i]? = some e ∧ table[i + 1]? = some f ∧ e.pattern < f.pattern ∧
      f.pattern < 4294967296 := by
  obtain ⟨e, he, _⟩ := table_get i (by omega)
  obtain ⟨f, hf, _⟩ := table_get (i + 1) (by omega)
  exact ⟨e, f, he, hf, table_sorted i (i + 1) e f (by omega) he hf,
    table_patterns_32 f (List.getElem?_mem hf)⟩

set_option maxRecDepth 100000 in
/-- Witness for C23: the dummy entry and the first real entry. -/
theorem table_strictly_ascending_witness :
    ∃ e f, table[0]? = some e ∧ table[0 + 1]? = some f ∧ e.pattern < f.pattern ∧
      f.pattern < 4294967296 :=
  table_strictly_ascending 0 (by omega)

/-- Counterexample to C24: halving from `floor((997+1)/2)` gives 499, 249,
124, ..., ten entries, not the eleven entries of `delta[]`; `delta[2]` is 125,
which is not `floor(delta[1]/2) = floor(249/2) = 124`. -/
theorem halving_is_not_delta :
    halvingDeltas 997 = [499, 249, 124, 62, 31, 15, 7, 3, 1, 0] ∧
    halvingDeltas 997 ≠ delta ∧
    delta[1]? = some 249 ∧ delta[2]? = some 125 ∧ (249 : Int) / 2 = 124 := by
  decide

/-- C24 as amended: the delta sequence used by the search, {499, 249, 125, 62,
31, 16, 8, 4, 2, 1, 0}, is the sequence generated for table size `N = 997` by
`delta[k] = floor((N + 2^k) / 2^(k+1))` for `k = 0, ..., 10`; it starts at
`floor((N+1)/2)` and ends at 0. -/
theorem delta_is_knuth :
    delta = [499, 249, 125, 62, 31, 16, 8, 4, 2, 1, 0] ∧
    delta = knuthDeltas 997 ∧
    delta[0]? = some (((997 + 1) / 2 : Nat) : Int) ∧ delta[10]? = some 0 := by
  decide

/-! ## Round trips of whole strings -/

theorem decode_units (units tail : List Nat) (hpos : ∀ v ∈ units, 0 < v)
    (h16 : ∀ v ∈ units, v < 65536) : ∀ fuel, units.length < fuel →
    UTF8toUCS2.loop fuel ((units.map utf8OfUnit).flatten ++ 0 :: tail) = .ok (units ++ [0]) := by
  induction units with
  | nil =>
    intro fuel hf
    obtain ⟨m, rfl⟩ : ∃ m, fuel = m + 1 := ⟨fuel - 1, by simp at hf; omega⟩
    simp [UTF8toUCS2_loop_zero]
  | cons u us ih =>
    intro fuel hf
    obtain ⟨m, rfl⟩ : ∃ m, fuel = m + 1 := ⟨fuel - 1, by simp at hf; omega⟩
    rw [List.map_cons, List.flatten_cons, List.append_assoc,
      decode_utf8OfUnit u _ m (hpos u (List.mem_cons_self _ _)) (h16 u (List.mem_cons_self _ _)),
      ih (fun v hv => hpos v (List.mem_cons_of_mem _ hv))
        (fun v hv => h16 v (List.mem_cons_of_mem _ hv)) m
        (by simp only [List.length_cons] at hf; omega)]
    rfl

theorem count_units (units tail : List Nat) (hpos : ∀ v ∈ units, 0 < v)
    (h16 : ∀ v ∈ units, v < 65536) : ∀ fuel len, units.length < fuel →
    mbStrLen.loop fuel ((units.map utf8OfUnit).flatten ++ 0 :: tail) len
      = .ok (len + units.length) := by
  induction units with
  | nil =>
    intro fuel len hf
    obtain ⟨m, rfl⟩ : ∃ m, fuel = m + 1 := ⟨fuel - 1, by simp at hf; omega⟩
    simp [mbStrLen_loop_zero]
  | cons u us ih =>
    intro fuel len hf
    obtain ⟨m, rfl⟩ : ∃ m, fuel = m + 1 := ⟨fuel - 1, by simp at hf; omega⟩
    rw [List.map_cons, List.flatten_cons, List.append_assoc,
      mbStrLen_utf8OfUnit u _ m len (hpos u (List.mem_cons_self _ _))
        (h16 u (List.mem_cons_self _ _)),
      ih (fun v hv => hpos v (List.mem_cons_of_mem _ hv))
        (fun v hv => h16 v (List.mem_cons_of_mem _ hv)) m (len + 1)
        (by simp only [List.length_cons] at hf; omega), List.length_cons]
    congr 1
    omega

theorem units_le_bytes (units : List Nat) :
    units.length ≤ ((units.map utf8OfUnit).flatten).length := by
  induction units with
  | nil => simp
  | cons u us ih =>
    have := utf8OfUnit_length_pos u
    simp only [List.map_cons, List.flatten_cons, List.length_append, List.length_cons]
    omega

/-- Decoding the encoding of a string of non-zero units gives the string back. -/
theorem decode_encoded (units tail : List Nat) (hpos : ∀ v ∈ units, 0 < v)
    (h16 : ∀ v ∈ units, v < 65536) :
    UTF8toUCS2 true ((units.map utf8OfUnit).flatten ++ 0 :: tail) = .ok (units ++ [0]) := by
  have hf : units.length < ((units.map utf8OfUnit).flatten ++ 0 :: tail).length + 1 := by
    have := units_le_bytes units
    simp only [List.length_append, List.length_cons]
    omega
  unfold UTF8toUCS2 mbStrLen
  rw [count_units units tail hpos h16 _ 0 hf, decode_units units tail hpos h16 _ hf]
  simp [storedBytes]

theorem encode_units (units tail : List Nat) (hpos : ∀ v ∈ units, 0 < v)
    (h16 : ∀ v ∈ units, v < 65536) :
    UCS2toUTF8 true (units ++ 0 :: tail) = .ok ((units.map utf8OfUnit).flatten ++ [0]) := by
  simp only [UCS2toUTF8, str16len, str16len_loop_append units tail hpos 0,
    UCS2toUTF8_loop_append units tail hpos h16]

/-- C26: on a little-endian host, for every zero-terminated 16-bit string `u`
of non-zero units, `UCS2toUTF8` returns a byte string, and `UTF8toUCS2` of
that byte string is `u` unit for unit, terminator included; a second string
of non-zero units with the same encoding is the same string. -/
theorem UTF8toUCS2_UCS2toUTF8_string (units tail : List Nat) (hpos : ∀ v ∈ units, 0 < v)
    (h16 : ∀ v ∈ units, v < 65536) :
    ∃ bytes, UCS2toUTF8 true (units ++ 0 :: tail) = .ok bytes ∧
      UTF8toUCS2 true bytes = .ok (units ++ [0]) ∧
      (∀ units2 tail2, (∀ v ∈ units2, 0 < v) → (∀ v ∈ units2, v < 65536) →
        UCS2toUTF8 true (units2 ++ 0 :: tail2) = .ok bytes → units2 = units) := by
  refine ⟨(units.map utf8OfUnit).flatten ++ [0], encode_units units tail hpos h16,
    decode_encoded units [] hpos h16, ?_⟩
  intro units2 tail2 hpos2 h162 henc
  rw [encode_units units2 tail2 hpos2 h162] at henc
  have h1 := decode_encoded units2 [] hpos2 h162
  have h2 := decode_encoded units [] hpos h16
  rw [Except.ok.inj henc, h2] at h1
  exact (List.append_cancel_right (Except.ok.inj h1)).symm

/-- Witness for C26: `A`, U+00C0, U+20AC, U+FFFF. -/
theorem UTF8toUCS2_UCS2toUTF8_string_witness :
    ∃ bytes, UCS2toUTF8 true [0x41, 0xC0, 0x20AC, 0xFFFF, 0] = .ok bytes ∧
      UTF8toUCS2 true bytes = .ok [0x41, 0xC0, 0x20AC, 0xFFFF, 0] :=
  have h := UTF8toUCS2_UCS2toUTF8_string [0x41, 0xC0, 0x20AC, 0xFFFF] [] (by decide) (by decide)
  h.imp (fun _ hb => ⟨hb.1, hb.2.1⟩)

theorem wellFormedChar_unit (ch : List Nat) (h : wellFormedChar ch = true) :
    ∃ v, 0 < v ∧ v < 65536 ∧ utf8OfUnit v = ch := by
  match ch, h with
  | [b], h =>
    simp only [wellFormedChar, decide_eq_true_eq] at h
    refine ⟨b, by omega, by omega, ?_⟩
    rw [utf8OfUnit_arith b (by omega), if_pos (by omega)]
  | [b0, b1], h =>
    simp only [wellFormedChar, decide_eq_true_eq] at h
    refine ⟨(b0 % 32) * 64 + b1 % 64, by omega, by omega, ?_⟩
    rw [utf8OfUnit_arith _ (by omega), if_neg (by omega), if_pos (by omega)]
    congr 1
    · omega
    · congr 1
      omega
  | [b0, b1, b2], h =>
    simp only [wellFormedChar, decide_eq_true_eq] at h
    refine ⟨(b0 % 16) * 4096 + (b1 % 64) * 64 + b2 % 64, by omega, by omega, ?_⟩
    rw [utf8OfUnit_arith _ (by omega), if_neg (by omega), if_neg (by omega)]
    congr 1
    · omega
    · congr 1
      · omega
      · congr 1
        omega

theorem wellFormed_units (chars : List (List Nat)) (hwf : ∀ ch ∈ chars, wellFormedChar ch = true) :
    ∃ units : List Nat, (∀ v ∈ units, 0 < v) ∧ (∀ v ∈ units, v < 65536) ∧
      (units.map utf8OfUnit).flatten = chars.flatten := by
  induction chars with
  | nil => exact ⟨[], by simp, by simp, rfl⟩
  | cons ch cs ih =>
    obtain ⟨units, hpos, h16, hflat⟩ := ih (fun c hc => hwf c (List.mem_cons_of_mem _ hc))
    obtain ⟨v, hv0, hv16, hv⟩ := wellFormedChar_unit ch (hwf ch (List.mem_cons_self _ _))
    refine ⟨v :: units, ?_, ?_, ?_⟩
    · intro x hx
      rcases List.mem_cons.mp hx with rfl | hx
      · exact hv0
      · exact hpos x hx
    · intro x hx
      rcases List.mem_cons.mp hx with rfl | hx
      · exact hv16
      · exact h16 x hx
    · rw [List.map_cons, List.flatten_cons, List.flatten_cons, hv, hflat]

/-- C27: on a little-endian host, for every zero-terminated byte string `s`
made only of single bytes 0x01..0x7F, 2-byte sequences of value at least 0x80
and 3-byte sequences of value at least 0x800, `UTF8toUCS2` returns a unit
string and `UCS2toUTF8` of that unit string is `s` byte for byte, terminator
included. -/
theorem UCS2toUTF8_UTF8toUCS2_string (chars : List (List Nat)) (tail : List Nat)
    (hwf : ∀ ch ∈ chars, wellFormedChar ch = true) :
    ∃ units, UTF8toUCS2 true (chars.flatten ++ 0 :: tail) = .ok units ∧
      UCS2toUTF8 true units = .ok (chars.flatten ++ [0]) := by
  obtain ⟨units, hpos, h16, hflat⟩ := wellFormed_units chars hwf
  refine ⟨units ++ [0], ?_, ?_⟩
  · rw [← hflat]
    exact decode_encoded units tail hpos h16
  · rw [← hflat]
    exact encode_units units [] hpos h16

/-- Witness for C27: `A`, the two bytes of U+00C0, the three bytes of U+20AC. -/
theorem UCS2toUTF8_UTF8toUCS2_string_witness :
    ∃ units, UTF8toUCS2 true [0x41, 0xC3, 0x80, 0xE2, 0x82, 0xAC, 0] = .ok units ∧
      UCS2toUTF8 true units = .ok [0x41, 0xC3, 0x80, 0xE2, 0x82, 0xAC, 0] :=
  UCS2toUTF8_UTF8toUCS2_string [[0x41], [0xC3, 0x80], [0xE2, 0x82, 0xAC]] [] (by decide)

/-! ## The two scans of a string without a sequence cut short -/

theorem loop_stop (p : List Nat) (fuel : Nat) (hk : mbCharLen p = .ok 0) :
    UTF8toUCS2.loop (fuel + 1) p = .ok [0] := by
  rw [UTF8toUCS2.loop, hk]
  simp

theorem count_stop (p : List Nat) (fuel len : Nat) (hk : mbCharLen p = .ok 0) :
    mbStrLen.loop (fuel + 1) p len = .ok len := by
  rw [mbStrLen.loop, hk]
  simp

theorem loop_step (p : List Nat) (k u fuel : Nat) (hk : mbCharLen p = .ok k) (hpos : 0 < k)
    (hd : UTF8toUCS2.decodeChar k p = .ok u) :
    UTF8toUCS2.loop (fuel + 1) p = (UTF8toUCS2.loop fuel (p.drop k)).map (fun out => u :: out) := by
  rw [UTF8toUCS2.loop, hk]
  simp only [gt_iff_lt, hpos, if_true, hd]
  cases UTF8toUCS2.loop fuel (p.drop k) <;> rfl

theorem count_step (p : List Nat) (k fuel len : Nat) (hk : mbCharLen p = .ok k) (hpos : 0 < k) :
    mbStrLen.loop (fuel + 1) p len = mbStrLen.loop fuel (p.drop k) (len + 1) := by
  rw [mbStrLen.loop, hk]
  simp only [gt_iff_lt, hpos, if_true]

theorem mbCharLen_nonzero (c : Nat) (hc0 : c ≠ 0) (hc : c < 256) :
    ∃ k, (∀ t, mbCharLen (c :: t) = .ok k) ∧ (k = 0 → 0x80 ≤ c ∧ c ≤ 0xBF) := by
  refine ⟨_, fun t => mbCharLen_cons c t hc, ?_⟩
  intro hk
  split_ifs at hk <;> omega

theorem decodeChar_present (k c : Nat) (t : List Nat) (hc0 : c ≠ 0) (hc : c < 256)
    (hk1 : 1 ≤ k) (hlen : k ≤ (c :: t).length) :
    ∃ u, u ≠ 0 ∧ ∀ r, UTF8toUCS2.decodeChar k ((c :: t) ++ r) = .ok u := by
  rcases k with _ | _ | _ | _ | k
  · omega
  · refine ⟨c % 65536, by omega, fun r => ?_⟩
    simp [UTF8toUCS2.decodeChar, rd]
  · cases t with
    | nil => simp at hlen
    | cons b1 t2 =>
      refine ⟨if ((b1 &&& 0x3f) + ((c &&& 0x1f) <<< 6)) % 65536 > 0x7f ∧ b1 &&& 0xC0 = 0x80
          then ((b1 &&& 0x3f) + ((c &&& 0x1f) <<< 6)) % 65536 else 0x2A, ?_, fun r => ?_⟩
      · split_ifs with h
        · omega
        · decide
      · simp only [UTF8toUCS2.decodeChar, rd, List.cons_append, List.getElem?_cons_zero,
          List.getElem?_cons_succ]
  · cases t with
    | nil => simp at hlen
    | cons b1 t2 =>
      cases t2 with
      | nil => simp at hlen
      | cons b2 t3 =>
        refine ⟨if ((b2 &&& 0x3f) + ((b1 &&& 0x3f) <<< 6) + ((c &&& 0xf) <<< 12)) % 65536 > 0x7ff
            ∧ b1 &&& 0xC0 = 0x80 ∧ b2 &&& 0xC0 = 0x80
            then ((b2 &&& 0x3f) + ((b1 &&& 0x3f) <<< 6) + ((c &&& 0xf) <<< 12)) % 65536
            else 0x2A, ?_, fun r => ?_⟩
        · split_ifs with h
          · omega
          · decide
        · simp only [UTF8toUCS2.decodeChar, rd, List.cons_append, List.getElem?_cons_zero,
            List.getElem?_cons_succ]
  · exact ⟨0x7E, by decide, fun r => decodeChar_long _ _ (by omega)⟩

theorem charStart_succ (str p : List Nat) (n k : Nat) (hp : charStart str n = some p)
    (hk : mbCharLen p = .ok k) (hpos : 0 < k) : charStart str (n + 1) = some (p.drop k) := by
  rw [charStart, hp]
  simp only [hk, gt_iff_lt, hpos, if_true]

/-- The scans from a character start `q ++ 0 :: tail` in front of the first
zero byte, in a string where no character is cut short: both loops return,
whatever is stored behind the zero byte; the units are non-zero; the scans
stop `j` bytes further, at the zero byte or at a byte 10xxxxxx before it. -/
theorem scan_core (str tail : List Nat)
    (hfull : ∀ n p k, charStart str n = some p → mbCharLen p = .ok k → 2 ≤ k →
      ∀ i, 1 ≤ i → i < k → ∃ b, p[i]? = some b ∧ b ≠ 0) :
    ∀ (N n : Nat) (q : List Nat), q.length < N → charStart str n = some (q ++ 0 :: tail) →
    (∀ b ∈ q, b ≠ 0 ∧ b < 256) →
    ∃ (units : List Nat) (j : Nat), (∀ u ∈ units, u ≠ 0) ∧
      (∀ tail2 fuel, q.length < fuel →
        UTF8toUCS2.loop fuel (q ++ 0 :: tail2) = .ok (units ++ [0]) ∧
        ∀ len, mbStrLen.loop fuel (q ++ 0 :: tail2) len = .ok (len + units.length)) ∧
      j ≤ q.length ∧ charStart str (n + units.length) = some (q.drop j ++ 0 :: tail) ∧
      (j = q.length ∨ ∃ c, q[j]? = some c ∧ 0x80 ≤ c ∧ c ≤ 0xBF) := by
  intro N
  induction N with
  | zero => intro n q h; omega
  | succ N ih =>
    intro n q hN hstart hq
    cases q with
    | nil =>
      refine ⟨[], 0, by simp, ?_, by simp, by simpa using hstart, Or.inl rfl⟩
      intro tail2 fuel hf
      obtain ⟨m, rfl⟩ : ∃ m, fuel = m + 1 := ⟨fuel - 1, by omega⟩
      exact ⟨by simp [UTF8toUCS2_loop_zero], fun len => by simp [mbStrLen_loop_zero]⟩
    | cons c t =>
      obtain ⟨hc0, hc⟩ := hq c (List.mem_cons_self _ _)
      obtain ⟨k, hk, hk0⟩ := mbCharLen_nonzero c hc0 hc
      by_cases hkz : k = 0
      · subst hkz
        refine ⟨[], 0, by simp, ?_, by simp, by simpa using hstart, Or.inr ⟨c, by simp, hk0 rfl⟩⟩
        intro tail2 fuel hf
        obtain ⟨m, rfl⟩ : ∃ m, fuel = m + 1 := ⟨fuel - 1, by omega⟩
        exact ⟨by simpa using loop_stop _ m (hk (t ++ 0 :: tail2)),
          fun len => by simpa using count_stop _ m len (hk (t ++ 0 :: tail2))⟩
      · have hk1 : 1 ≤ k := by omega
        have hklen : k ≤ (c :: t).length := by
          by_contra hcon
          have h2 : 2 ≤ k := by simp only [List.length_cons] at hcon; omega
          obtain ⟨b, hb, hb0⟩ := hfull n _ k hstart (hk _) h2 (c :: t).length
            (by simp) (by omega)
          rw [List.getElem?_append_right (Nat.le_refl _)] at hb
          simp at hb
          exact hb0 hb.symm
        obtain ⟨u, hu0, hu⟩ := decodeChar_present k c t hc0 hc hk1 hklen
        have hdrop : ∀ r : List Nat, ((c :: t) ++ r).drop k = (c :: t).drop k ++ r :=
          fun r => List.drop_append_of_le_length hklen
        have hnext : charStart str (n + 1) = some ((c :: t).drop k ++ 0 :: tail) := by
          rw [charStart_succ str _ n k hstart (hk _) (by omega), hdrop]
        have hlen' : ((c :: t).drop k).length < N := by
          rw [List.length_drop]
          simp only [List.length_cons] at hN ⊢
          omega
        obtain ⟨units, j, hunits, hloops, hj, hstop, hwhy⟩ := ih (n + 1) ((c :: t).drop k) hlen'
          hnext (fun b hb => hq b (List.mem_of_mem_drop hb))
        refine ⟨u :: units, k + j, ?_, ?_, ?_, ?_, ?_⟩
        · intro x hx
          rcases List.mem_cons.mp hx with rfl | hx
          · exact hu0
          · exact hunits x hx
        · intro tail2 fuel hf
          obtain ⟨m, rfl⟩ : ∃ m, fuel = m + 1 := ⟨fuel - 1, by omega⟩
          have hm : ((c :: t).drop k).length < m := by
            rw [List.length_drop]
            simp only [List.length_cons] at hf ⊢
            omega
          obtain ⟨hl, hc2⟩ := hloops tail2 m hm
          constructor
          · rw [loop_step ((c :: t) ++ 0 :: tail2) k u m (hk _) (by omega)
              (hu (0 :: tail2)), hdrop, hl]
            rfl
          · intro len
            rw [count_step ((c :: t) ++ 0 :: tail2) k m len (hk _) (by omega),
              hdrop, hc2 (len + 1), List.length_cons]
            congr 1
            omega
        · rw [List.length_drop] at hj
          omega
        · rw [List.length_cons, show n + (units.length + 1) = n + 1 + units.length by omega,
            ← List.drop_drop]
          exact hstop
        · rcases hwhy with h | ⟨c2, hc2, hrange⟩
          · left
            rw [List.length_drop] at h
            omega
          · right
            rw [List.getElem?_drop] at hc2
            exact ⟨c2, hc2, hrange⟩

theorem charStart_after_stop (str p : List Nat) (m : Nat) (hp : charStart str m = some p)
    (hk : mbCharLen p = .ok 0) : ∀ d, charStart str (m + 1 + d) = none := by
  intro d
  induction d with
  | zero =>
    rw [Nat.add_zero, charStart, hp]
    simp [hk]
  | succ d ih =>
    rw [← Nat.add_assoc, charStart, ih]

/-- C25: for every zero-terminated byte string in which each character start
with `mbCharLen` `k ≥ 2` is followed by at least `k - 1` non-zero bytes, the
decode pass of `UTF8toUCS2` writes exactly `mbStrLen(s)` units, none of them
zero, followed by one zero unit: `mbStrLen(s) + 1` units in all, and
`str16len` of the result is `mbStrLen(s)`. -/
theorem UTF8toUCS2_fills_buffer (le : Bool) (pre tail : List Nat)
    (hpre : ∀ b ∈ pre, b ≠ 0 ∧ b < 256)
    (hfull : ∀ n p k, charStart (pre ++ 0 :: tail) n = some p → mbCharLen p = .ok k → 2 ≤ k →
      ∀ i, 1 ≤ i → i < k → ∃ b, p[i]? = some b ∧ b ≠ 0) :
    ∃ units : List Nat, mbStrLen (pre ++ 0 :: tail) = .ok units.length ∧
      UTF8toUCS2 le (pre ++ 0 :: tail) = .ok (units ++ [0]) ∧
      (∀ u ∈ units, u ≠ 0) ∧ (units ++ [0]).length = units.length + 1 ∧
      str16len (units ++ [0]) = .ok units.length := by
  obtain ⟨units, j, hunits, hloops, _, _, _⟩ := scan_core (pre ++ 0 :: tail) tail hfull
    (pre.length + 1) 0 pre (Nat.lt_succ_self _) rfl hpre
  have hf : pre.length < (pre ++ 0 :: tail).length + 1 := by
    simp only [List.length_append, List.length_cons]
    omega
  obtain ⟨hl, hc⟩ := hloops tail _ hf
  have hcount : mbStrLen (pre ++ 0 :: tail) = .ok units.length := by
    unfold mbStrLen
    rw [hc 0, Nat.zero_add]
  refine ⟨units, hcount, ?_, hunits, by simp, ?_⟩
  · unfold UTF8toUCS2
    rw [hcount, hl]
    cases le <;> simp [storedBytes]
  · unfold str16len
    rw [str16len_loop_append units [] (fun v hv => Nat.pos_of_ne_zero (hunits v hv)) 0,
      Nat.zero_add]

/-- C28: for every zero-terminated byte string in which each character start
with `mbCharLen` `k ≥ 2` is followed by at least `k - 1` non-zero bytes,
`mbStrLen` and `UTF8toUCS2` read only bytes at or before the first zero byte:
they return on the object that ends with that byte, and return the same
whatever is stored behind it; both scans stop `j` bytes from the start, at the
first zero byte (`j = pre.length`) or at a byte 10xxxxxx before it, where
`mbCharLen` returns 0. -/
theorem scans_stop_at_terminator (le : Bool) (pre tail : List Nat)
    (hpre : ∀ b ∈ pre, b ≠ 0 ∧ b < 256)
    (hfull : ∀ n p k, charStart (pre ++ 0 :: tail) n = some p → mbCharLen p = .ok k → 2 ≤ k →
      ∀ i, 1 ≤ i → i < k → ∃ b, p[i]? = some b ∧ b ≠ 0) :
    ∃ (m : Nat) (out : List Nat) (j : Nat),
      mbStrLen (pre ++ [0]) = .ok m ∧ UTF8toUCS2 le (pre ++ [0]) = .ok out ∧
      mbStrLen (pre ++ 0 :: tail) = .ok m ∧ UTF8toUCS2 le (pre ++ 0 :: tail) = .ok out ∧
      j ≤ pre.length ∧
      charStart (pre ++ 0 :: tail) m = some (pre.drop j ++ 0 :: tail) ∧
      mbCharLen (pre.drop j ++ 0 :: tail) = .ok 0 ∧
      (j = pre.length ∨ ∃ c, pre[j]? = some c ∧ 0x80 ≤ c ∧ c ≤ 0xBF) := by
  obtain ⟨units, j, hunits, hloops, hj, hstop, hwhy⟩ := scan_core (pre ++ 0 :: tail) tail hfull
    (pre.length + 1) 0 pre (Nat.lt_succ_self _) rfl hpre
  have hf1 : pre.length < (pre ++ [0]).length + 1 := by
    simp only [List.length_append, List.length_cons]
    omega
  have hf2 : pre.length < (pre ++ 0 :: tail).length + 1 := by
    simp only [List.length_append, List.length_cons]
    omega
  obtain ⟨hl1, hc1⟩ := hloops [] _ hf1
  obtain ⟨hl2, hc2⟩ := hloops tail _ hf2
  have hcount1 : mbStrLen (pre ++ [0]) = .ok units.length := by
    unfold mbStrLen
    rw [hc1 0, Nat.zero_add]
  have hcount2 : mbStrLen (pre ++ 0 :: tail) = .ok units.length := by
    unfold mbStrLen
    rw [hc2 0, Nat.zero_add]
  refine ⟨units.length, units ++ [0], j, hcount1, ?_, hcount2, ?_, hj, ?_, ?_, hwhy⟩
  · unfold UTF8toUCS2
    rw [hcount1, hl1]
    cases le <;> simp [storedBytes]
  · unfold UTF8toUCS2
    rw [hcount2, hl2]
    cases le <;> simp [storedBytes]
  · rw [Nat.zero_add] at hstop
    exact hstop
  · rcases hwhy with h | ⟨c, hc, hlo, hhi⟩
    · rw [h, List.drop_length, List.nil_append, mbCharLen_cons 0 _ (by decide)]
      simp
    · obtain ⟨hlt, hget⟩ := List.getElem?_eq_some_iff.mp hc
      rw [List.drop_eq_getElem_cons hlt, hget, List.cons_append,
        mbCharLen_cons c _ (hpre c (List.getElem?_mem hc)).2]
      have c1 : ¬ (c = 0) := by omega
      have c2 : ¬ (c < 0x80) := by omega
      have c3 : c < 0xC0 := by omega
      simp only [c1, c2, c3, if_true, if_false]

/-- Witness for C25: the two bytes of U+00C0 fill a buffer of two units. -/
theorem UTF8toUCS2_fills_buffer_witness :
    ∃ units : List Nat, mbStrLen ([0xC3, 0x80] ++ 0 :: []) = .ok units.length ∧
      UTF8toUCS2 true ([0xC3, 0x80] ++ 0 :: []) = .ok (units ++ [0]) ∧
      (∀ u ∈ units, u ≠ 0) ∧ (units ++ [0]).length = units.length + 1 ∧
      str16len (units ++ [0]) = .ok units.length := by
  apply UTF8toUCS2_fills_buffer true [0xC3, 0x80] [] (by decide)
  intro n p k hp hk h2 i hi1 hi2
  rcases n with _ | _ | n
  · have hp2 : p = [0xC3, 0x80, 0] := by
      simp only [charStart, Option.some.injEq] at hp
      exact hp.symm
    subst hp2
    have hk2 : mbCharLen [0xC3, 0x80, 0] = .ok 2 := by decide
    rw [hk2] at hk
    have hk3 : k = 2 := (Except.ok.inj hk).symm
    have hi : i = 1 := by omega
    subst hi
    exact ⟨0x80, rfl, by decide⟩
  · have h1 : charStart ([0xC3, 0x80] ++ 0 :: []) (0 + 1) = some [0] := by decide
    rw [h1] at hp
    have hp2 : p = [0] := (Option.some.inj hp).symm
    subst hp2
    have hk2 : mbCharLen [0] = .ok 0 := by decide
    rw [hk2] at hk
    have hk3 : k = 0 := (Except.ok.inj hk).symm
    omega
  · have h1 : charStart ([0xC3, 0x80] ++ 0 :: []) 1 = some [0] := by decide
    have hnone := charStart_after_stop _ _ 1 h1 (by decide) n
    rw [show 1 + 1 + n = n + 1 + 1 by omega] at hnone
    rw [hnone] at hp
    cases hp

/-- Witness for C28: the two bytes of U+00C0, an isolated continuation byte,
`B`: both scans stop at the continuation byte, two bytes from the start. -/
theorem scans_stop_at_terminator_witness :
    ∃ (m : Nat) (out : List Nat) (j : Nat),
      mbStrLen ([0xC3, 0x80, 0x80, 0x42] ++ [0]) = .ok m ∧
      UTF8toUCS2 true ([0xC3, 0x80, 0x80, 0x42] ++ [0]) = .ok out ∧
      mbStrLen ([0xC3, 0x80, 0x80, 0x42] ++ 0 :: [0x43, 0]) = .ok m ∧
      UTF8toUCS2 true ([0xC3, 0x80, 0x80, 0x42] ++ 0 :: [0x43, 0]) = .ok out ∧
      j ≤ [0xC3, 0x80, 0x80, 0x42].length ∧
      charStart ([0xC3, 0x80, 0x80, 0x42] ++ 0 :: [0x43, 0]) m
        = some ([0xC3, 0x80, 0x80, 0x42].drop j ++ 0 :: [0x43, 0]) ∧
      mbCharLen ([0xC3, 0x80, 0x80, 0x42].drop j ++ 0 :: [0x43, 0]) = .ok 0 ∧
      (j = [0xC3, 0x80, 0x80, 0x42].length
        ∨ ∃ c, [0xC3, 0x80, 0x80, 0x42][j]? = some c ∧ 0x80 ≤ c ∧ c ≤ 0xBF) := by
  apply scans_stop_at_terminator true [0xC3, 0x80, 0x80, 0x42] [0x43, 0] (by decide)
  intro n p k hp hk h2 i hi1 hi2
  rcases n with _ | _ | n
  · have hp2 : p = [0xC3, 0x80, 0x80, 0x42, 0, 0x43, 0] := by
      simp only [charStart, Option.some.injEq] at hp
      exact hp.symm
    subst hp2
    have hk2 : mbCharLen [0xC3, 0x80, 0x80, 0x42, 0, 0x43, 0] = .ok 2 := by decide
    rw [hk2] at hk
    have hk3 : k = 2 := (Except.ok.inj hk).symm
    have hi : i = 1 := by omega
    subst hi
    exact ⟨0x80, rfl, by decide⟩
  · have h1 : charStart ([0xC3, 0x80, 0x80, 0x42] ++ 0 :: [0x43, 0]) (0 + 1)
        = some [0x80, 0x42, 0, 0x43, 0] := by decide
    rw [h1] at hp
    have hp2 : p = [0x80, 0x42, 0, 0x43, 0] := (Option.some.inj hp).symm
    subst hp2
    have hk2 : mbCharLen [0x80, 0x42, 0, 0x43, 0] = .ok 0 := by decide
    rw [hk2] at hk
    have hk3 : k = 0 := (Except.ok.inj hk).symm
    omega
  · have h1 : charStart ([0xC3, 0x80, 0x80, 0x42] ++ 0 :: [0x43, 0]) 1
        = some [0x80, 0x42, 0, 0x43, 0] := by decide
    have hnone := charStart_after_stop _ _ 1 h1 (by decide) n
    rw [show 1 + 1 + n = n + 1 + 1 by omega] at hnone
    rw [hnone] at hp
    cases hp

end Unicode
